import Mathlib

/-!
Verification of the sqlbox data-mapping layer (a JavaScript library binding
model descriptors to SQL tables) against its design specification.

The development is a shallow embedding of the library's record lifecycle
engine.  JavaScript objects are embedded as association lists with string
keys (JS object keys are unique, which appears as `Nodup` hypotheses where
needed); in-place mutation is embedded as explicit state passing; the
asynchronous callback pipeline (`async.series`) is embedded as sequential
`Except` chaining; the external SQL driver is a function parameter
`exec : Query → QueryResult` so that theorems quantify over every possible
database response.  Field values are embedded as scalars (numbers, strings,
booleans, null, undefined); the library's special handling of depth-1 array
values (`slice(0)` copies) is value-identity at this level of abstraction.

The embedding follows the most complete revision of the engine
(`lib/model_methods.js` and its successor revision with the change-set
short-circuit, the relation resolver and the dialect layer), plus the
earlier revision-column variant of `saveUpdate` where the specification
refers to it.
-/

namespace Sqlbox

/-- A JavaScript scalar value as stored in a record field. -/
inductive Value where
  | vnull
  | vundef
  | vnum (n : Int)
  | vstr (s : String)
  | vbool (b : Bool)
deriving DecidableEq, Repr

/-- JS truthiness of a value (`if (clone.id)`); `NaN` is not modeled. -/
def Value.truthy : Value → Bool
  | .vnull => false
  | .vundef => false
  | .vnum n => n != 0
  | .vstr s => s != ""
  | .vbool b => b

/-- `String(value)`: the string JS coerces a value to when it is used as an
object property key (as `_.groupBy` does). -/
def Value.jsString : Value → String
  | .vnull => "null"
  | .vundef => "undefined"
  | .vnum n => toString n
  | .vstr s => s
  | .vbool b => if b then "true" else "false"

/-- A JavaScript object: an insertion-ordered association list.  Real JS
objects have unique keys; that invariant is `AList.wfKeys` below. -/
abbrev Obj := List (String × Value)

/-- First value stored under a key, if any (`key in obj` / `obj[key]`). -/
def findVal {β : Type} : List (String × β) → String → Option β
  | [], _ => none
  | p :: ps, k => if p.1 = k then some p.2 else findVal ps k

/-- JS property assignment `obj[k] = v`: replace the entry if the key is
present, append it otherwise. -/
def setKey {β : Type} (l : List (String × β)) (k : String) (v : β) :
    List (String × β) :=
  if (findVal l k).isSome then
    l.map (fun p => if p.1 = k then (k, v) else p)
  else
    l ++ [(k, v)]

/-- JS `delete obj[k]`. -/
def delKey {β : Type} (l : List (String × β)) (k : String) :
    List (String × β) :=
  l.filter (fun p => p.1 != k)

/-- The keys of an object, in insertion order. -/
def keysOf {β : Type} (l : List (String × β)) : List String :=
  l.map Prod.fst

/-- Key uniqueness: every genuine JS object satisfies this. -/
def wfKeys {β : Type} (l : List (String × β)) : Prop :=
  (keysOf l).Nodup

instance {β : Type} (l : List (String × β)) : Decidable (wfKeys l) := by
  unfold wfKeys; infer_instance

/-- `obj[k]`: reading an absent property yields `undefined`. -/
def Obj.get (o : Obj) (k : String) : Value :=
  (findVal o k).getD (Value.vundef)

/-- `k in obj`. -/
def Obj.hasKey (o : Obj) (k : String) : Bool :=
  (findVal o k).isSome

theorem findVal_append_left {β : Type} (l₁ l₂ : List (String × β)) (k : String)
    (h : (findVal l₁ k).isSome) :
    findVal (l₁ ++ l₂) k = findVal l₁ k := by
  induction l₁ with
  | nil => simp [findVal] at h
  | cons p ps ih =>
      rw [List.cons_append]
      unfold findVal
      by_cases hk : p.1 = k
      · rw [if_pos hk, if_pos hk]
      · rw [if_neg hk, if_neg hk]
        unfold findVal at h
        rw [if_neg hk] at h
        exact ih h

theorem findVal_cons {β : Type} (p : String × β) (ps : List (String × β))
    (k : String) :
    findVal (p :: ps) k = if p.1 = k then some p.2 else findVal ps k := rfl

theorem findVal_append_right {β : Type} (l₁ l₂ : List (String × β)) (k : String)
    (h : findVal l₁ k = none) :
    findVal (l₁ ++ l₂) k = findVal l₂ k := by
  induction l₁ with
  | nil => simp
  | cons p ps ih =>
      rw [findVal_cons] at h
      rw [List.cons_append, findVal_cons]
      by_cases hk : p.1 = k
      · rw [if_pos hk] at h; exact absurd h (by simp)
      · rw [if_neg hk] at h
        rw [if_neg hk]
        exact ih h

theorem findVal_eq_none_of_not_mem {β : Type} (l : List (String × β))
    (k : String) (h : k ∉ keysOf l) : findVal l k = none := by
  induction l with
  | nil => rfl
  | cons p ps ih =>
      simp only [keysOf, List.map_cons, List.mem_cons] at h
      push_neg at h
      unfold findVal
      rw [if_neg (fun hh => h.1 hh.symm)]
      exact ih (by simp only [keysOf]; exact h.2)

theorem setKey_of_not_mem {β : Type} (l : List (String × β)) (k : String)
    (v : β) (h : k ∉ keysOf l) : setKey l k v = l ++ [(k, v)] := by
  unfold setKey
  rw [findVal_eq_none_of_not_mem l k h]
  simp

/-- Accumulated JS copy loop: with fresh distinct keys it concatenates. -/
theorem foldl_setKey_eq_append {β : Type} (l acc : List (String × β))
    (hl : wfKeys l) (hdisj : ∀ k ∈ keysOf l, k ∉ keysOf acc) :
    l.foldl (fun a p => setKey a p.1 p.2) acc = acc ++ l := by
  induction l generalizing acc with
  | nil => simp
  | cons p ps ih =>
      have hl' : p.1 ∉ keysOf ps ∧ wfKeys ps := by
        unfold wfKeys keysOf at hl ⊢
        rw [List.map_cons, List.nodup_cons] at hl
        exact hl
      have hdisj2 : ∀ k ∈ keysOf ps, k ∉ keysOf (acc ++ [(p.1, p.2)]) := by
        intro k hk hmem
        unfold keysOf at hmem
        rw [List.map_append] at hmem
        rcases List.mem_append.mp hmem with hacc | hsing
        · exact hdisj k
            (by unfold keysOf; rw [List.map_cons]; exact List.mem_cons_of_mem _ hk)
            hacc
        · simp only [List.map_cons, List.map_nil, List.mem_singleton] at hsing
          exact hl'.1 (hsing ▸ hk)
      simp only [List.foldl_cons]
      rw [setKey_of_not_mem acc p.1 p.2
        (hdisj p.1 (by unfold keysOf; rw [List.map_cons]; exact List.mem_cons_self _ _))]
      rw [ih (acc ++ [(p.1, p.2)]) hl'.2 hdisj2]
      simp

theorem findVal_map_overwrite_self {β : Type} (l : List (String × β))
    (k : String) (v : β) (h : (findVal l k).isSome) :
    findVal (l.map (fun p => if p.1 = k then (k, v) else p)) k = some v := by
  induction l with
  | nil => simp [findVal] at h
  | cons p ps ih =>
      rw [List.map_cons, findVal_cons]
      by_cases hk : p.1 = k
      · rw [if_pos hk]
        simp
      · rw [if_neg hk, if_neg hk]
        rw [findVal_cons, if_neg hk] at h
        exact ih h

theorem findVal_map_overwrite_ne {β : Type} (l : List (String × β))
    (k k' : String) (v : β) (hne : k' ≠ k) :
    findVal (l.map (fun p => if p.1 = k then (k, v) else p)) k' = findVal l k' := by
  induction l with
  | nil => rfl
  | cons p ps ih =>
      rw [List.map_cons, findVal_cons, findVal_cons]
      by_cases hk : p.1 = k
      · rw [if_pos hk]
        rw [if_neg (show ¬((k, v).1 = k') from fun hh => hne hh.symm)]
        rw [if_neg (show ¬(p.1 = k') from fun hh => hne (hh.symm.trans hk))]
        exact ih
      · rw [if_neg hk]
        by_cases hp : p.1 = k'
        · rw [if_pos hp, if_pos hp]
        · rw [if_neg hp, if_neg hp]
          exact ih

theorem findVal_setKey_self {β : Type} (l : List (String × β)) (k : String)
    (v : β) : findVal (setKey l k v) k = some v := by
  unfold setKey
  by_cases h : (findVal l k).isSome
  · rw [if_pos h]
    exact findVal_map_overwrite_self l k v h
  · rw [if_neg h]
    rw [findVal_append_right l [(k, v)] k (Option.not_isSome_iff_eq_none.mp h)]
    rw [findVal_cons, if_pos rfl]

theorem findVal_setKey_ne {β : Type} (l : List (String × β)) (k k' : String)
    (v : β) (hne : k' ≠ k) : findVal (setKey l k v) k' = findVal l k' := by
  unfold setKey
  by_cases h : (findVal l k).isSome
  · rw [if_pos h]
    exact findVal_map_overwrite_ne l k k' v hne
  · rw [if_neg h]
    by_cases h' : (findVal l k').isSome
    · exact findVal_append_left l [(k, v)] k' h'
    · rw [findVal_append_right l [(k, v)] k' (Option.not_isSome_iff_eq_none.mp h')]
      rw [findVal_cons, if_neg (show ¬((k, v).1 = k') from fun hh => hne hh.symm)]
      exact (Option.not_isSome_iff_eq_none.mp h').symm

theorem findVal_delKey_self {β : Type} (l : List (String × β)) (k : String) :
    findVal (delKey l k) k = none := by
  induction l with
  | nil => rfl
  | cons p ps ih =>
      unfold delKey
      rw [List.filter_cons]
      by_cases hk : p.1 = k
      · rw [if_neg (by simp [hk])]
        exact ih
      · rw [if_pos (by simp [hk])]
        rw [findVal_cons, if_neg hk]
        exact ih

theorem findVal_delKey_ne {β : Type} (l : List (String × β)) (k k' : String)
    (hne : k' ≠ k) : findVal (delKey l k) k' = findVal l k' := by
  induction l with
  | nil => rfl
  | cons p ps ih =>
      unfold delKey
      rw [List.filter_cons, findVal_cons]
      by_cases hk : p.1 = k
      · rw [if_neg (by simp [hk])]
        rw [if_neg (fun hh => hne (hh.symm.trans hk))]
        exact ih
      · rw [if_pos (by simp [hk]), findVal_cons]
        by_cases hp : p.1 = k'
        · rw [if_pos hp, if_pos hp]
        · rw [if_neg hp, if_neg hp]
          exact ih

-- ---------------------------------------------------------------------------
-- Data model: columns, validation rules, errors, relations, models
-- ---------------------------------------------------------------------------

/-- A column descriptor: friendly `name` and physical `source` name
(`standardizeColumns` fills `source` in from `name`). -/
structure Column where
  name : String
  source : String
deriving DecidableEq, Repr

/-- A validation rule attached to a field.  The three source forms
(`zip pass/'exists'`, `['len', 1, 10]`, custom callback) all boil down to: run a
check against the record and the current key, and report one failure through
`v.error` when it does not pass.  The check itself lives in the external
`validator` package (or user code), so it is a function parameter here; its
display name is kept for the `expected`/`failed` bookkeeping. -/
structure Rule where
  name : String
  passes : Obj → String → Bool

/-- One entry of the accumulated `validationErrors` list: either a per-field
entry `{key, value, expected, failed}` or a bare `{message}` entry pushed by
the free-form `model.validate` callback (which runs with `currentKey`
deleted). -/
inductive VEntry where
  | fieldErr (key : String) (value : Value) (expected : List String)
      (failed : List String)
  | messageErr (msg : String)
deriving DecidableEq, Repr

/-- A structured conflict carried by a duplicate-key error. -/
structure Conflict where
  key : String
  value : String
  expected : String
deriving DecidableEq, Repr

/-- A `BoxError`: a code mirroring HTTP status semantics plus optional
payloads. -/
structure BoxErr where
  code : Nat
  msg : String := ""
  validationErrors : List VEntry := []
  conflicts : List Conflict := []
deriving DecidableEq, Repr

/-- A relation descriptor `{type, name, model, foreignKey?}`. -/
structure Relation where
  type : String
  name : String
  model : String
  foreignKey : Option String
deriving DecidableEq, Repr

/-- A lifecycle hook callback: receives the record (by reference in JS —
embedded as value in / value out) and either passes it on or signals an
error. -/
def Hook : Type := Obj → Except BoxErr Obj

/-- A model descriptor, as produced by `sqlbox.create` (columns already
include the implicit `id`/`createdAt`/`updatedAt` and are standardized).
`freeValidate` is the free-form `validate(obj, v)` callback, embedded as the
list of messages it reports through `v.error` (the default is none).  The
external database client is not stored here; it enters each operation as an
explicit `exec` parameter. -/
structure Model where
  name : String
  tableName : String
  columns : List Column
  validations : List (String × List Rule)
  freeValidate : Obj → List String
  hooks : List (String × List Hook)
  relations : List Relation
  revisionColumnName : String

-- ---------------------------------------------------------------------------
-- Record shape: enumerable fields plus the hidden $meta.original snapshot
-- ---------------------------------------------------------------------------

/-- A record: its enumerable fields plus the non-enumerable `$meta.original`
snapshot (`none` when the record carries no `$meta`, e.g. a caller-constructed
literal).  Whenever the engine creates a `$meta` it immediately stores the
`original` snapshot in it, so the two are modeled as one option. -/
structure Rec where
  fields : Obj
  meta : Option Obj
deriving DecidableEq, Repr

-- ---------------------------------------------------------------------------
-- Object helpers from model_methods.js
-- ---------------------------------------------------------------------------

/-- `cloneObject`: copies each enumerable field of `obj` onto a fresh object
(depth-1 arrays are sliced, which at this scalar level of abstraction is the
identity on the value). -/
def cloneObject (obj : Obj) : Obj :=
  obj.foldl (fun acc kv => setKey acc kv.1 kv.2) []

/-- `pruneToColumns`: a fresh object keeping, for each model column, the value
found under the friendly name or else under the source name; columns absent
from the input are skipped. -/
def pruneToColumns (model : Model) (obj : Obj) : Obj :=
  model.columns.foldl
    (fun inst c =>
      if Obj.hasKey obj c.name then setKey inst c.name (Obj.get obj c.name)
      else if Obj.hasKey obj c.source then setKey inst c.name (Obj.get obj c.source)
      else inst)
    []

/-- `columnsToSource`: re-key the friendly-named fields by their physical
source names, dropping anything that is not a model column. -/
def columnsToSource (model : Model) (obj : Obj) : Obj :=
  model.columns.foldl
    (fun acc c =>
      if Obj.hasKey obj c.name then setKey acc c.source (Obj.get obj c.name)
      else acc)
    []

/-- `changes(o1, o2)`: the entries of `o1` whose value differs from `o2`'s
value under the same key (the kept value always comes from `o1`). -/
def changes (o1 o2 : Obj) : Obj :=
  o1.filter (fun kv => !(kv.2 == Obj.get o2 kv.1))

/-- `hasChanges`: a record with no `$meta` always counts as changed; otherwise
some model column's value must differ from the snapshot. -/
def hasChanges (model : Model) (r : Rec) : Bool :=
  match r.meta with
  | none => true
  | some orig =>
      model.columns.any (fun c => !(Obj.get r.fields c.name == Obj.get orig c.name))

-- ---------------------------------------------------------------------------
-- Where-Clause Builder (most complete revision)
-- ---------------------------------------------------------------------------

/-- The argument handed to a node-sql operator: a scalar, or a list of
scalars (for `in`/`notIn`). -/
inductive OpArg where
  | val (v : Value)
  | arr (vs : List Value)
deriving DecidableEq, Repr

/-- The value side of one predicate entry: a plain scalar (equality) or an
operator object `{op: arg, ...}`. -/
inductive WhereVal where
  | scalar (v : Value)
  | ops (entries : List (String × OpArg))
deriving DecidableEq, Repr

/-- A declarative predicate, as passed to `all`/`first`/`save`. -/
abbrev WherePred := List (String × WhereVal)

/-- One node-sql filter `t[source][operator](arg)` appended by
`query.where(...)`. -/
inductive Filter where
  | cond (source : String) (operator : String) (arg : OpArg)
deriving DecidableEq, Repr

/-- The short-form operator renaming: `not` → `notEquals`;
`eq`/`is`/`eql` → `equals`. -/
def normalizeOp (op : String) : String :=
  if op = "not" then "notEquals"
  else if op = "eq" ∨ op = "is" ∨ op = "eql" then "equals"
  else op

/-- The filters contributed by one predicate entry once its column is known. -/
def whereEntryFilters (source : String) : WhereVal → List Filter
  | .scalar v => [.cond source "equals" (.val v)]
  | .ops entries =>
      entries.map (fun p =>
        let op := normalizeOp p.1
        match p.2 with
        | .val .vnull =>
            .cond source (if op = "notEquals" then "isNotNull" else "isNull")
              (.val .vundef)
        | arg => .cond source op arg)

/-- `whereClause`: for each predicate entry whose field is a known column,
append its filters; entries with unknown fields are skipped. -/
def whereClause (model : Model) (props : WherePred) : List Filter :=
  props.foldl
    (fun acc p =>
      match model.columns.find? (fun c => c.name == p.1) with
      | none => acc
      | some col => acc ++ whereEntryFilters col.source p.2)
    []

-- ---------------------------------------------------------------------------
-- Queries and the event log
-- ---------------------------------------------------------------------------

/-- A query issued through the database client.  `updateQ`'s set-values
include the textually injected `"updated_at" = now()` assignment as an
ordinary trailing entry. -/
inductive Query where
  | beginTxn
  | commitTxn
  | rollbackTxn
  | insertQ (table : String) (values : Obj)
  | updateQ (table : String) (setValues : Obj) (filters : List Filter)
  | selectQ (table : String) (filters : List Filter) (limit : Option Nat)
      (offset : Option Nat)
  | deleteQ (table : String) (idArg : Int)
deriving DecidableEq, Repr

/-- Whether a query writes rows (an INSERT or an UPDATE). -/
def Query.isWrite : Query → Bool
  | .insertQ _ _ => true
  | .updateQ _ _ _ => true
  | _ => false

/-- What the external driver hands back for one query. -/
structure QueryResult where
  rows : List Obj
  rowCount : Nat := 0
deriving Repr

/-- One observable engine step: a query issued to the client, or a named hook
being run. -/
inductive Event where
  | queryEv (q : Query)
  | hookEv (name : String)
deriving DecidableEq, Repr

/-- Whether an event is a write query. -/
def Event.isWrite : Event → Bool
  | .queryEv q => q.isWrite
  | .hookEv _ => false

-- ---------------------------------------------------------------------------
-- Hook Runner
-- ---------------------------------------------------------------------------

/-- Thread the record through a list of hook callbacks, stopping at the first
error. -/
def runHookFns : List Hook → Obj → Except BoxErr Obj
  | [], obj => .ok obj
  | f :: fs, obj =>
      match f obj with
      | .error e => .error e
      | .ok obj2 => runHookFns fs obj2

/-- `runHook`: look the hook up by name; absent hooks pass the record through
unchanged. -/
def runHook (model : Model) (obj : Obj) (hookName : String) : Except BoxErr Obj :=
  match findVal model.hooks hookName with
  | none => .ok obj
  | some fns => runHookFns fns obj

/-- `runHooks`: run the named hooks in sequence, recording each hook that is
started and stopping at the first error. -/
def runHooksSeq (model : Model) : List String → Obj → List Event × Except BoxErr Obj
  | [], obj => ([], .ok obj)
  | n :: ns, obj =>
      match runHook model obj n with
      | .error e => ([.hookEv n], .error e)
      | .ok obj2 =>
          let rest := runHooksSeq model ns obj2
          (.hookEv n :: rest.1, rest.2)

-- ---------------------------------------------------------------------------
-- Validator
-- ---------------------------------------------------------------------------

/-- The `v.error` handler with `currentKey` set: find the existing entry for
the key (`_.findWhere(errors, {key})`) and push the failed rule onto it, or
push a fresh `{key, value, expected, failed}` entry at the end. -/
def pushFieldError : List VEntry → String → Value → List String → String →
    List VEntry
  | [], k, v, exp, f => [.fieldErr k v exp [f]]
  | .fieldErr k' v' exp' fs :: rest, k, v, exp, f =>
      if k' = k then .fieldErr k' v' exp' (fs ++ [f]) :: rest
      else .fieldErr k' v' exp' fs :: pushFieldError rest k v exp f
  | .messageErr m :: rest, k, v, exp, f =>
      .messageErr m :: pushFieldError rest k v exp f

/-- Run the declared rules of one field, accumulating one `v.error` per
failing rule. -/
def runRulesForKey (obj : Obj) (key : String) (rules : List Rule)
    (errors : List VEntry) : List VEntry :=
  rules.foldl
    (fun es rule =>
      if rule.passes obj key then es
      else pushFieldError es key (Obj.get obj key) (rules.map Rule.name) rule.name)
    errors

/-- The per-field validation loop over `model.validations`. -/
def runValidations (model : Model) (obj : Obj) : List VEntry :=
  model.validations.foldl (fun es kv => runRulesForKey obj kv.1 kv.2 es) []

/-- `validate`: per-field rules, then the free-form `model.validate` callback
(whose reports arrive with no `currentKey` and become message entries); a
non-empty error list fails with a 403 `BoxError` carrying it. -/
def validate (model : Model) (obj : Obj) : Except BoxErr Unit :=
  let errors :=
    runValidations model obj ++ (model.freeValidate obj).map VEntry.messageErr
  if errors.isEmpty then .ok ()
  else .error { code := 403, msg := "Validation did not pass.",
                validationErrors := errors }

-- ---------------------------------------------------------------------------
-- Dialect predicates (postgres)
-- ---------------------------------------------------------------------------

/-- `isDupEntryError`: the driver error code of a unique-constraint violation
(postgres `23505`).  Errors minted by the engine itself carry HTTP-style
codes, never this one. -/
def isDupEntryError (e : BoxErr) : Bool :=
  e.code == 23505

-- ---------------------------------------------------------------------------
-- build
-- ---------------------------------------------------------------------------

/-- `build`: prune a raw row to the model's columns, store a pruned clone as
the hidden `$meta.original` snapshot, then run the `afterFetch` hook. -/
def build (model : Model) (obj : Obj) : List Event × Except BoxErr Rec :=
  let inst := pruneToColumns model obj
  let orig := pruneToColumns model inst
  let hooksRun := runHooksSeq model ["afterFetch"] inst
  (hooksRun.1, hooksRun.2.map (fun f => ⟨f, some orig⟩))

-- ---------------------------------------------------------------------------
-- saveNew / saveUpdate (most complete revision, postgres dialect)
-- ---------------------------------------------------------------------------

/-- `saveNew`: map the record to source keys, extend with the server-clock
`created_at`/`updated_at` assignments, INSERT requesting the row back, then
build the returned row and run `afterCreate`/`afterSave`. -/
def saveNew (model : Model) (exec : Query → QueryResult) (r : Rec) :
    List Event × Except BoxErr Rec :=
  let obj := columnsToSource model r.fields
  let vals := setKey (setKey obj "created_at" (.vstr "NOW()")) "updated_at"
    (.vstr "NOW()")
  let q : Query := .insertQ model.tableName vals
  let result := exec q
  if result.rows.length ≠ 0 then
    match build model (result.rows.headD []) with
    | (lg, .error e) => (.queryEv q :: lg, .error e)
    | (lg, .ok rec) =>
        let hooksRun := runHooksSeq model ["afterCreate", "afterSave"] rec.fields
        (.queryEv q :: lg ++ hooksRun.1,
         hooksRun.2.map (fun f => ⟨f, rec.meta⟩))
  else
    ([.queryEv q],
     .error { code := 500,
              msg := "Postgres returned no error, but no row was returned." })

/-- The 409 conflict reported when the guarded UPDATE touches zero rows: the
row may not exist, or it may exist but fail the guard. -/
def conflictUpdateErr : BoxErr :=
  { code := 409,
    msg := "Row with id was not found, or the where clause did not pass." }

/-- The managed-field stripping done by `saveUpdate` on the clone:
`delete obj.id; delete obj.createdAt; delete obj.updatedAt`. -/
def stripManaged (o : Obj) : Obj :=
  delKey (delKey (delKey o "id") "createdAt") "updatedAt"

/-- The change-set `saveUpdate` computes after stripping the managed fields:
a diff against the `$meta.original` snapshot when one is present, else the
whole remaining record. -/
def updateChangeSet (r : Rec) : Obj :=
  match r.meta with
  | some orig => changes (stripManaged r.fields) orig
  | none => stripManaged r.fields

/-- The SET assignments of the guarded UPDATE: the change-set re-keyed by
source names, plus the textually injected `updated_at = now()`. -/
def saveUpdateSetValues (model : Model) (r : Rec) : Obj :=
  columnsToSource model (updateChangeSet r) ++ [("updated_at", .vstr "now()")]

/-- `saveUpdate`: force the record's id into the caller's guard, strip the
engine-managed `id`/`createdAt`/`updatedAt`, diff against the snapshot when
one is present (else send the whole record), build the guarded UPDATE with
the forced `updated_at = now()` assignment, and treat zero returned rows as a
409 conflict. -/
def saveUpdate (model : Model) (exec : Query → QueryResult) (r : Rec)
    (whereArg : WherePred) : List Event × Except BoxErr Rec :=
  let w := setKey whereArg "id" (.scalar (Obj.get r.fields "id"))
  let q : Query := .updateQ model.tableName
    (saveUpdateSetValues model r) (whereClause model w)
  let result := exec q
  if result.rows.length ≠ 0 then
    match build model (result.rows.headD []) with
    | (lg, .error e) => (.queryEv q :: lg, .error e)
    | (lg, .ok rec) =>
        let hooksRun := runHooksSeq model ["afterUpdate", "afterSave"] rec.fields
        (.queryEv q :: lg ++ hooksRun.1,
         hooksRun.2.map (fun f => ⟨f, rec.meta⟩))
  else
    ([.queryEv q], .error conflictUpdateErr)

-- ---------------------------------------------------------------------------
-- save: the transaction-wrapped pipeline
-- ---------------------------------------------------------------------------

/-- Outcome of the `async.series` save pipeline: the saved record, or the
error that aborted it together with the clone's state at that moment (the
JS closure's `clone` variable, needed by the 304 path of the final
callback). -/
inductive SaveFlow where
  | ok (saved : Rec)
  | fail (e : BoxErr) (cloneNow : Rec)
deriving Repr

/-- The `async.series` body of `save`: BEGIN, `beforeValidation`, validate,
`afterValidation`, the change check (a 304 error when the change-set is
empty), `beforeSave`, the INSERT-or-UPDATE chosen by id truthiness, COMMIT. -/
def saveCore (model : Model) (exec : Query → QueryResult) (clone : Rec)
    (whereArg : WherePred) : List Event × SaveFlow :=
  match runHook model clone.fields "beforeValidation" with
  | .error e =>
      ([.queryEv .beginTxn, .hookEv "beforeValidation"], .fail e clone)
  | .ok f1 =>
      let c1 : Rec := ⟨f1, clone.meta⟩
      match validate model c1.fields with
      | .error e =>
          ([.queryEv .beginTxn, .hookEv "beforeValidation"], .fail e c1)
      | .ok _ =>
          match runHook model c1.fields "afterValidation" with
          | .error e =>
              ([.queryEv .beginTxn, .hookEv "beforeValidation",
                .hookEv "afterValidation"], .fail e c1)
          | .ok f2 =>
              let c2 : Rec := ⟨f2, clone.meta⟩
              if hasChanges model c2 then
                match runHook model c2.fields "beforeSave" with
                | .error e =>
                    ([.queryEv .beginTxn, .hookEv "beforeValidation",
                      .hookEv "afterValidation", .hookEv "beforeSave"],
                     .fail e c2)
                | .ok f3 =>
                    let c3 : Rec := ⟨f3, clone.meta⟩
                    let savedStep :=
                      if (Obj.get c3.fields "id").truthy then
                        saveUpdate model exec c3 whereArg
                      else
                        saveNew model exec c3
                    match savedStep with
                    | (lgS, .error e) =>
                        ([.queryEv .beginTxn, .hookEv "beforeValidation",
                          .hookEv "afterValidation", .hookEv "beforeSave"] ++ lgS,
                         .fail e c3)
                    | (lgS, .ok saved) =>
                        ([.queryEv .beginTxn, .hookEv "beforeValidation",
                          .hookEv "afterValidation", .hookEv "beforeSave"] ++ lgS
                          ++ [.queryEv .commitTxn],
                         .ok saved)
              else
                ([.queryEv .beginTxn, .hookEv "beforeValidation",
                  .hookEv "afterValidation"], .fail { code := 304 } c2)

/-- `save`: clone the input (keeping its `$meta`), run the pipeline, ROLLBACK
on any error, then classify: a 304 becomes a success returning the clone, a
driver duplicate-entry error becomes a 409 conflict, anything else
propagates.  (Driver-level errors are not minted inside this embedding, so
the duplicate-entry translation is present but never taken.) -/
def save (model : Model) (exec : Query → QueryResult) (obj : Rec)
    (whereArg : WherePred) : List Event × Except BoxErr Rec :=
  let clone : Rec := ⟨cloneObject obj.fields, obj.meta⟩
  match saveCore model exec clone whereArg with
  | (lg, .ok saved) => (lg, .ok saved)
  | (lg, .fail e cloneNow) =>
      let lg2 := lg ++ [.queryEv .rollbackTxn]
      if e.code = 304 then (lg2, .ok cloneNow)
      else if isDupEntryError e then
        (lg2, .error { code := 409,
                       msg := "Duplicate key violates unique constraint.",
                       conflicts := [] })
      else (lg2, .error e)

-- ---------------------------------------------------------------------------
-- Read operations: all / first / get
-- ---------------------------------------------------------------------------

/-- `async.map(result.rows, model.build, ...)`: build every returned row,
stopping at the first error. -/
def buildRows (model : Model) : List Obj → List Event × Except BoxErr (List Rec)
  | [] => ([], .ok [])
  | row :: rows =>
      match build model row with
      | (lg, .error e) => (lg, .error e)
      | (lg, .ok rec) =>
          match buildRows model rows with
          | (lg2, .error e) => (lg ++ lg2, .error e)
          | (lg2, .ok recs) => (lg ++ lg2, .ok (rec :: recs))

/-- `all`: one SELECT with the built where clause and the limit/offset
options, each returned row mapped through `build` (ordering options and
`opts.include` delegation are outside the properties verified here). -/
def allOp (model : Model) (exec : Query → QueryResult) (props : WherePred)
    (limit offset : Option Nat) : List Event × Except BoxErr (List Rec) :=
  let q : Query := .selectQ model.tableName (whereClause model props) limit offset
  let result := exec q
  let b := buildRows model result.rows
  (.queryEv q :: b.1, b.2)

/-- `first`: `all` with `limit = 1`, completing with `objects[0]` — which is
`undefined`, not an error, when nothing matched. -/
def firstOp (model : Model) (exec : Query → QueryResult) (props : WherePred)
    (offset : Option Nat) : List Event × Except BoxErr (Option Rec) :=
  let a := allOp model exec props (some 1) offset
  (a.1, a.2.map List.head?)

/-- The first argument of `get`: a numeric id, or (`typeof` object) a query
object. -/
inductive IdOrQuery where
  | idNum (n : Int)
  | query (q : WherePred)
deriving Repr

/-- `get` (most complete revision): an object argument is used as the query,
a non-object becomes `{id: Number(id)}`; `first` is consulted with
`limit 1`, and an empty outcome is turned into a 404. -/
def getOp (model : Model) (exec : Query → QueryResult) (arg : IdOrQuery) :
    List Event × Except BoxErr Rec :=
  let query : WherePred :=
    match arg with
    | .query q => q
    | .idNum n => [("id", .scalar (.vnum n))]
  match firstOp model exec query none with
  | (lg, .error e) => (lg, .error e)
  | (lg, .ok none) =>
      (lg, .error { code := 404, msg := "Row was not found in model." })
  | (lg, .ok (some o)) => (lg, .ok o)

/-- The first argument of the `lib/model_methods.js` `get`: a numeric id or
(`typeof` object) a record. -/
inductive MMArg where
  | idNum (n : Int)
  | record (r : Rec)
deriving Repr

/-- How that `get` completes: the object handed straight back synchronously
(callback never invoked, no query issued), or a callback completion after
consulting `first`. -/
inductive GetOutcome where
  | immediate (r : Rec)
  | viaCallback (events : List Event) (res : Except BoxErr Rec)
deriving Repr

/-- `get` from `lib/model_methods.js`: the `typeof id === 'object'` check
returns the already-held record directly — before any query is built — and
only non-object arguments reach `box.first({id: Number(id)}, {limit: 1})`.
`firstFn` is the model's `first` operation. -/
def mmGet (firstFn : WherePred → List Event × Except BoxErr (Option Rec))
    (arg : MMArg) : GetOutcome :=
  match arg with
  | .record r => .immediate r
  | .idNum n =>
      match firstFn [("id", .scalar (.vnum n))] with
      | (lg, .error e) => .viaCallback lg (.error e)
      | (lg, .ok none) =>
          .viaCallback lg
            (.error { code := 404, msg := "Row was not found in model." })
      | (lg, .ok (some o)) => .viaCallback lg (.ok o)

-- ---------------------------------------------------------------------------
-- The revision-column variant of saveUpdate (earlier revisions)
-- ---------------------------------------------------------------------------

/-- JS `++` on a field value; incrementing a non-number gives `NaN`, which is
modeled as `undefined` (never relied upon: the theorems hypothesize a numeric
revision). -/
def Value.incr : Value → Value
  | .vnum n => .vnum (n + 1)
  | _ => (Value.vundef)

/-- The early-revision `build`: the same per-column copy as
`pruneToColumns`, without the `$meta` bookkeeping. -/
def buildSimple (box : Model) (obj : Obj) : Obj :=
  pruneToColumns box obj

/-- What the revision-variant `saveUpdate` sends: it reads the id and the
submitted revision, strips the managed fields, increments the revision field
in place, re-keys by source names and appends the textual
`updated_at = current_timestamp` assignment; the UPDATE is guarded by
`id = $id AND revision = $currentRevision`. -/
structure RevUpdate where
  setValues : Obj
  idArg : Value
  revArg : Value
deriving DecidableEq, Repr

/-- The revision-variant `saveUpdate` up to the query boundary. -/
def saveUpdateRevSpec (box : Model) (obj : Obj) : RevUpdate :=
  let idv := Obj.get obj "id"
  let currentRevision := Obj.get obj box.revisionColumnName
  let obj2 := delKey (delKey (delKey obj "id") "createdAt") "updatedAt"
  let obj3 := setKey obj2 box.revisionColumnName (Value.incr currentRevision)
  let sourceObject := columnsToSource box obj3
  { setValues := sourceObject ++ [("updated_at", .vstr "current_timestamp")],
    idArg := idv, revArg := currentRevision }

/-- Overwrite a stored row with the SET assignments, in order. -/
def applySet (row : Obj) (setVals : Obj) : Obj :=
  setVals.foldl (fun r kv => setKey r kv.1 kv.2) row

/-- The revision guard of the UPDATE's WHERE clause, evaluated on a stored
row. -/
def rowMatchesGuard (revCol : String) (idv revv : Value) (row : Obj) : Bool :=
  (Obj.get row "id" == idv) && (Obj.get row revCol == revv)

/-- Semantics of the external SQL engine executing the guarded
`UPDATE ... WHERE id = $id AND revision = $rev RETURNING *`: every stored row
satisfying the guard is overwritten by the SET assignments and returned;
other rows are untouched.  Stored rows are keyed by source column names; the
implicit id and revision columns have identical friendly and source names. -/
def execRevUpdate (box : Model) (table : List Obj) (u : RevUpdate) :
    List Obj × List Obj :=
  let rc := box.revisionColumnName
  (table.map (fun row =>
     if rowMatchesGuard rc u.idArg u.revArg row then applySet row u.setValues
     else row),
   (table.filter (rowMatchesGuard rc u.idArg u.revArg)).map
     (fun row => applySet row u.setValues))

/-- The revision-variant `saveUpdate` end to end against a stored table:
zero returned rows fail with a 409 conflict, otherwise the returned row is
rebuilt.  The updated table is returned alongside. -/
def saveUpdateRevOp (box : Model) (table : List Obj) (obj : Obj) :
    List Obj × Except BoxErr Obj :=
  let u := saveUpdateRevSpec box obj
  let r := execRevUpdate box table u
  if r.2.length ≠ 0 then (r.1, .ok (buildSimple box (r.2.headD [])))
  else
    (r.1, .error { code := 409,
                   msg := "Row was not found, or revision did not match." })

-- ---------------------------------------------------------------------------
-- Relation Resolver (string-leaf inclusion)
-- ---------------------------------------------------------------------------

/-- `helpers.relationByName` (the JS version asserts when the relation is
missing; the assertion is the `none` case here). -/
def relationByName (model : Model) (relationName : String) : Option Relation :=
  model.relations.find? (fun rel => rel.name == relationName)

/-- `helpers.foreignKeyForRelation`: an explicit `foreignKey` wins; otherwise
`belongsTo` derives `name + "Id"` and `hasMany` derives `model.name + "Id"`;
any other type falls through (JS `undefined`). -/
def foreignKeyForRelation (model : Model) (relationName : String) :
    Option String :=
  match relationByName model relationName with
  | none => none
  | some rel =>
      match rel.foreignKey with
      | some fk => some fk
      | none =>
          if rel.type = "belongsTo" then some (rel.name ++ "Id")
          else if rel.type = "hasMany" then some (model.name ++ "Id")
          else none

/-- The value `include` assigns to `r[inc]` for one owning record: the
grouped list (`hasMany`), its first element or `undefined` (`hasOne` /
`belongsTo`), or nothing at all for an unrecognized relation type. -/
inductive Attached where
  | many (objs : List Obj)
  | single (obj : Option Obj)
  | skip
deriving DecidableEq, Repr

/-- The string-leaf case of `include`, over the owning records' enumerable
fields.  `allFn` is the associated model's `all` operation (each call issues
exactly one SELECT); the returned first component lists the predicates it was
called with.  Each owning record is paired with the value assigned onto it.
An undefined foreign key (a `hasOne` with no explicit `foreignKey`) behaves
as the JS property key `"undefined"`. -/
def includeStr (model : Model) (records : List Obj) (inc : String)
    (allFn : WherePred → Except BoxErr (List Obj)) :
    List WherePred × Except BoxErr (List (Obj × Attached)) :=
  if records.isEmpty then ([], .ok [])
  else
    match relationByName model inc with
    | none =>
        ([], .error { code := 500, msg := "Relation is not defined on model." })
    | some rel =>
        let foreignKey := (foreignKeyForRelation model inc).getD "undefined"
        let query : WherePred :=
          if rel.type = "belongsTo" then
            [("id", .ops [("in", .arr (records.map (fun r => Obj.get r foreignKey)))])]
          else if rel.type = "hasMany" ∨ rel.type = "hasOne" then
            [(foreignKey, .ops [("in", .arr (records.map (fun r => Obj.get r "id")))])]
          else []
        match allFn query with
        | .error e => ([query], .error e)
        | .ok associatedRecords =>
            if rel.type = "belongsTo" then
              ([query], .ok (records.map (fun r =>
                (r, Attached.single (associatedRecords.find?
                      (fun a => Obj.get a "id" == Obj.get r foreignKey))))))
            else if rel.type = "hasMany" ∨ rel.type = "hasOne" then
              ([query], .ok (records.map (fun r =>
                let grouped := associatedRecords.filter (fun a =>
                  (Obj.get a foreignKey).jsString == (Obj.get r "id").jsString)
                (r, if rel.type = "hasOne" then Attached.single grouped.head?
                    else Attached.many grouped))))
            else
              ([query], .ok (records.map (fun r => (r, Attached.skip))))

-- ---------------------------------------------------------------------------
-- A heap of JS objects, for the defensive-cloning frame property
-- ---------------------------------------------------------------------------

/-- Reference lookup in a heap store. -/
def findRef : List (Nat × Obj) → Nat → Option Obj
  | [], _ => none
  | p :: ps, r => if p.1 = r then some p.2 else findRef ps r

/-- A heap of JS objects addressed by references. -/
structure Heap where
  objs : List (Nat × Obj)
  nextRef : Nat
deriving Repr

/-- Dereference (a dangling reference reads as an empty object). -/
def Heap.read (h : Heap) (r : Nat) : Obj :=
  (findRef h.objs r).getD []

/-- In-place mutation of the object behind a reference. -/
def Heap.write (h : Heap) (r : Nat) (o : Obj) : Heap :=
  ⟨h.objs.map (fun p => if p.1 = r then (r, o) else p), h.nextRef⟩

/-- Allocate a fresh object, returning its reference. -/
def Heap.alloc (h : Heap) (o : Obj) : Heap × Nat :=
  (⟨h.objs ++ [(h.nextRef, o)], h.nextRef + 1⟩, h.nextRef)

/-- One hook step over the heap: run the hook against the object behind
`ref` and store the (possibly mutated) record back. -/
def hookStepH (model : Model) (h : Heap) (ref : Nat) (name : String) :
    Heap × Except BoxErr Unit :=
  match runHook model (h.read ref) name with
  | .error e => (h, .error e)
  | .ok o => (h.write ref o, .ok ())

/-- `save` with the caller's record living on an explicit heap: the input is
cloned into a fresh object and every mutation of the pipeline — hook
callbacks and `saveUpdate`'s managed-field deletions — is a write to the
clone's reference, exactly as the source passes `clone` (never `obj`) to
every step.  The result classification of `save` only massages the returned
value and touches no object, so it is omitted here. -/
def saveHeap (model : Model) (exec : Query → QueryResult) (h0 : Heap)
    (objRef : Nat) (meta : Option Obj) (whereArg : WherePred) :
    Heap × Except BoxErr Rec :=
  let av := h0.alloc (cloneObject (h0.read objRef))
  let h1 := av.1
  let cloneRef := av.2
  match hookStepH model h1 cloneRef "beforeValidation" with
  | (h2, .error e) => (h2, .error e)
  | (h2, .ok _) =>
      match validate model (h2.read cloneRef) with
      | .error e => (h2, .error e)
      | .ok _ =>
          match hookStepH model h2 cloneRef "afterValidation" with
          | (h3, .error e) => (h3, .error e)
          | (h3, .ok _) =>
              if hasChanges model ⟨h3.read cloneRef, meta⟩ then
                match hookStepH model h3 cloneRef "beforeSave" with
                | (h4, .error e) => (h4, .error e)
                | (h4, .ok _) =>
                    if (Obj.get (h4.read cloneRef) "id").truthy then
                      let h5 := h4.write cloneRef
                        (stripManaged (h4.read cloneRef))
                      (h5, (saveUpdate model exec ⟨h4.read cloneRef, meta⟩ whereArg).2)
                    else
                      (h4, (saveNew model exec ⟨h4.read cloneRef, meta⟩).2)
              else
                (h3, .ok ⟨h3.read cloneRef, meta⟩)

-- ---------------------------------------------------------------------------
-- Derived notions used by the theorems
-- ---------------------------------------------------------------------------

/-- The key of a per-field validation entry. -/
def entryKey : VEntry → Option String
  | .fieldErr k _ _ _ => some k
  | .messageErr _ => none

/-- The keys of the per-field entries of an error list, in order. -/
def fieldKeysOf (es : List VEntry) : List String :=
  es.filterMap entryKey

/-- Whether at least one declared rule of a field fails on the record. -/
def rulesFail (obj : Obj) (key : String) (rules : List Rule) : Bool :=
  rules.any (fun rule => !(rule.passes obj key))

-- ---------------------------------------------------------------------------
-- Concrete fixtures for witnesses and counterexamples
-- ---------------------------------------------------------------------------

/-- A `people` model as `sqlbox.create` would produce it: user columns plus
the implicit `id`/`createdAt`/`updatedAt` (standardized sources) and a
revision column; one declared rule requiring `age` to be present; no hooks,
default free-form validate. -/
def wModel : Model where
  name := "person"
  tableName := "people"
  columns := [⟨"name", "name"⟩, ⟨"age", "age"⟩, ⟨"id", "id"⟩,
              ⟨"createdAt", "created_at"⟩, ⟨"updatedAt", "updated_at"⟩,
              ⟨"revision", "revision"⟩]
  validations := [("age", [⟨"exists", fun obj key => Obj.hasKey obj key⟩])]
  freeValidate := fun _ => []
  hooks := []
  relations := [⟨"hasMany", "posts", "post", some "personId"⟩]
  revisionColumnName := "revision"

/-- A driver that finds no rows for any query. -/
def execEmpty : Query → QueryResult := fun _ => { rows := [], rowCount := 0 }

/-- One stored post row: a child of person 1 (person 2 has none). -/
def postsRows : List Obj :=
  [[("id", Value.vnum 10), ("personId", Value.vnum 1)]]

/-- The posts model's `all` operation as the resolver sees it. -/
def postsAllFn : WherePred → Except BoxErr (List Obj) :=
  fun _ => .ok postsRows

-- ---------------------------------------------------------------------------
-- C5: get on an object argument short-circuits
-- ---------------------------------------------------------------------------

/-- C5: for every call to `get` whose first argument is an object rather than
an id, `get` short-circuits and returns that object directly — no query is
issued and the callback machinery is never consulted — and the check is by
the argument's type, not by id presence (any record short-circuits, even one
with no id); a non-object argument always goes through the `first` lookup
instead. -/
theorem C5_get_object_short_circuits :
    (∀ (firstFn : WherePred → List Event × Except BoxErr (Option Rec))
       (r : Rec), mmGet firstFn (.record r) = .immediate r) ∧
    (∀ (firstFn2 : WherePred → List Event × Except BoxErr (Option Rec))
       (n : Int), ∃ lg res, mmGet firstFn2 (.idNum n) = .viaCallback lg res) := by
  constructor
  · intro firstFn r
    rfl
  · intro firstFn2 n
    rcases hf : firstFn2 [("id", WhereVal.scalar (.vnum n))] with ⟨lg, res⟩
    cases res with
    | error e =>
        exact ⟨lg, .error e, by simp only [mmGet]; rw [hf]⟩
    | ok o =>
        cases o with
        | none =>
            exact ⟨lg, .error { code := 404, msg := "Row was not found in model." },
              by simp only [mmGet]; rw [hf]⟩
        | some x =>
            exact ⟨lg, .ok x, by simp only [mmGet]; rw [hf]⟩

-- ---------------------------------------------------------------------------
-- C7: first yields undefined on no match, get yields 404
-- ---------------------------------------------------------------------------

/-- C7: for every query matching no rows, `first` completes successfully with
`undefined` (no error), while `get` on the same query fails with a NotFound
error whose code is 404. -/
theorem C7_first_undefined_get_notfound (model : Model)
    (exec : Query → QueryResult) (props : WherePred)
    (hrows : (exec (.selectQ model.tableName (whereClause model props)
      (some 1) none)).rows = []) :
    (firstOp model exec props none).2 = .ok none ∧
    (getOp model exec (.query props)).2 =
      .error { code := 404, msg := "Row was not found in model." } := by
  have hfirst : firstOp model exec props none =
      ([.queryEv (.selectQ model.tableName (whereClause model props)
        (some 1) none)], .ok none) := by
    simp only [firstOp, allOp]
    rw [hrows]
    rfl
  refine ⟨by rw [hfirst], ?_⟩
  simp only [getOp]
  rw [hfirst]

theorem C7_witness :
    (firstOp wModel execEmpty [] none).2 = .ok none ∧
    (getOp wModel execEmpty (.query [])).2 =
      .error { code := 404, msg := "Row was not found in model." } :=
  C7_first_undefined_get_notfound wModel execEmpty [] rfl

-- ---------------------------------------------------------------------------
-- C6: where-clause building
-- ---------------------------------------------------------------------------

/-- C6: a predicate entry whose field is not a known column contributes no
filter; the operator aliases `eq`/`is`/`eql` build an `equals` filter and
`not` a `notEquals` filter; and a `null` value under `equals`/`notEquals`
(directly or through the aliases) builds an `isNull`/`isNotNull` filter
rather than a comparison against a literal null. -/
theorem C6_where_clause (model : Model) :
    (∀ (props : WherePred) (f : String) (v : WhereVal),
      model.columns.find? (fun c => c.name == f) = none →
      whereClause model (props ++ [(f, v)]) = whereClause model props) ∧
    (∀ (f : String) (col : Column) (op : String) (arg : Value),
      model.columns.find? (fun c => c.name == f) = some col →
      arg ≠ .vnull →
      ((op = "eq" ∨ op = "is" ∨ op = "eql") →
        whereClause model [(f, .ops [(op, .val arg)])] =
          [.cond col.source "equals" (.val arg)]) ∧
      (op = "not" →
        whereClause model [(f, .ops [(op, .val arg)])] =
          [.cond col.source "notEquals" (.val arg)])) ∧
    (∀ (f : String) (col : Column) (op : String),
      model.columns.find? (fun c => c.name == f) = some col →
      ((op = "eq" ∨ op = "is" ∨ op = "eql" ∨ op = "equals") →
        whereClause model [(f, .ops [(op, .val .vnull)])] =
          [.cond col.source "isNull" (.val .vundef)]) ∧
      ((op = "not" ∨ op = "notEquals") →
        whereClause model [(f, .ops [(op, .val .vnull)])] =
          [.cond col.source "isNotNull" (.val .vundef)])) := by
  refine ⟨?_, ?_, ?_⟩
  · intro props f v hnone
    unfold whereClause
    rw [List.foldl_append]
    simp only [List.foldl_cons, List.foldl_nil]
    rw [hnone]
  · intro f col op arg hfind hnn
    constructor
    · rintro (rfl | rfl | rfl) <;>
        cases arg <;>
        first
          | exact absurd rfl hnn
          | (unfold whereClause
             simp only [List.foldl_cons, List.foldl_nil]
             rw [hfind]
             rfl)
    · rintro rfl
      cases arg <;>
        first
          | exact absurd rfl hnn
          | (unfold whereClause
             simp only [List.foldl_cons, List.foldl_nil]
             rw [hfind]
             rfl)
  · intro f col op hfind
    constructor
    · rintro (rfl | rfl | rfl | rfl) <;>
        (unfold whereClause
         simp only [List.foldl_cons, List.foldl_nil]
         rw [hfind]
         rfl)
    · rintro (rfl | rfl) <;>
        (unfold whereClause
         simp only [List.foldl_cons, List.foldl_nil]
         rw [hfind]
         rfl)

theorem C6_witness :
    whereClause wModel ([] ++ [("nosuch", WhereVal.scalar (.vnum 1))]) =
      whereClause wModel [] ∧
    whereClause wModel [("age", .ops [("eq", .val (.vnum 3))])] =
      [.cond "age" "equals" (.val (.vnum 3))] ∧
    whereClause wModel [("age", .ops [("not", .val (.vnum 3))])] =
      [.cond "age" "notEquals" (.val (.vnum 3))] ∧
    whereClause wModel [("age", .ops [("is", .val .vnull)])] =
      [.cond "age" "isNull" (.val .vundef)] ∧
    whereClause wModel [("age", .ops [("not", .val .vnull)])] =
      [.cond "age" "isNotNull" (.val .vundef)] := by
  have h := C6_where_clause wModel
  exact ⟨h.1 [] "nosuch" (WhereVal.scalar (.vnum 1)) (by decide),
    (h.2.1 "age" ⟨"age", "age"⟩ "eq" (.vnum 3) (by decide) (by decide)).1
      (Or.inl rfl),
    (h.2.1 "age" ⟨"age", "age"⟩ "not" (.vnum 3) (by decide) (by decide)).2 rfl,
    (h.2.2 "age" ⟨"age", "age"⟩ "is" (by decide)).1 (Or.inr (Or.inl rfl)),
    (h.2.2 "age" ⟨"age", "age"⟩ "not" (by decide)).2 (Or.inl rfl)⟩

-- ---------------------------------------------------------------------------
-- C1: a no-op save issues no write and returns the input
-- ---------------------------------------------------------------------------

theorem cloneObject_id (o : Obj) (h : wfKeys o) : cloneObject o = o := by
  unfold cloneObject
  rw [foldl_setKey_eq_append o [] h (fun k _ => by simp [keysOf])]
  simp

/-- C1: saving a record that carries an original snapshot and whose column
fields all equal that snapshot issues no INSERT and no UPDATE, and hands back
a record equal to the input (hypotheses: the lifecycle hooks that run before
the change check are absent and validation passes, so nothing mutates the
clone before it is compared with the snapshot). -/
theorem C1_noop_save (model : Model) (exec : Query → QueryResult)
    (flds orig : Obj) (whereArg : WherePred)
    (hwf : wfKeys flds)
    (hbv : findVal model.hooks "beforeValidation" = none)
    (hav : findVal model.hooks "afterValidation" = none)
    (hval : runValidations model flds = [])
    (hfree : model.freeValidate flds = [])
    (hsame : ∀ c ∈ model.columns, Obj.get flds c.name = Obj.get orig c.name) :
    (save model exec ⟨flds, some orig⟩ whereArg).2 = .ok ⟨flds, some orig⟩ ∧
    ∀ ev ∈ (save model exec ⟨flds, some orig⟩ whereArg).1,
      ev.isWrite = false := by
  have hclone : cloneObject flds = flds := cloneObject_id flds hwf
  have h1 : runHook model flds "beforeValidation" = .ok flds := by
    unfold runHook; rw [hbv]
  have h2 : validate model flds = .ok () := by
    simp [validate, hval, hfree]
  have h3 : runHook model flds "afterValidation" = .ok flds := by
    unfold runHook; rw [hav]
  have h4 : hasChanges model ⟨flds, some orig⟩ = false := by
    show (model.columns.any
      fun c => !(Obj.get flds c.name == Obj.get orig c.name)) = false
    rw [List.any_eq_false]
    intro c hc
    rw [hsame c hc]
    simp
  have hcore : saveCore model exec ⟨flds, some orig⟩ whereArg =
      ([.queryEv .beginTxn, .hookEv "beforeValidation",
        .hookEv "afterValidation"],
       .fail { code := 304 } ⟨flds, some orig⟩) := by
    simp [saveCore, h1, h2, h3, h4]
  have hsave : save model exec ⟨flds, some orig⟩ whereArg =
      ([.queryEv .beginTxn, .hookEv "beforeValidation",
        .hookEv "afterValidation", .queryEv .rollbackTxn],
       .ok ⟨flds, some orig⟩) := by
    simp only [save, hclone]
    rw [hcore]
    rfl
  rw [hsave]
  refine ⟨rfl, ?_⟩
  intro ev hev
  have hev2 : ev ∈ [Event.queryEv .beginTxn, Event.hookEv "beforeValidation",
      Event.hookEv "afterValidation", Event.queryEv .rollbackTxn] := hev
  fin_cases hev2 <;> rfl

-- ---------------------------------------------------------------------------
-- C3: updates are guarded by id + caller where, and zero rows is a 409
-- ---------------------------------------------------------------------------

/-- C3: saving an existing record (truthy id) issues an UPDATE whose WHERE
clause is built from the caller-supplied predicate with the record's id
forced in; when that guarded UPDATE affects zero rows, save fails with a
Conflict error of code 409 — not a NotFound 404 (hypotheses: hooks absent,
validation passes, and the change check reports changes so the UPDATE is
reached). -/
theorem C3_guarded_update_conflict (model : Model) (exec : Query → QueryResult)
    (flds : Obj) (meta : Option Obj) (whereArg : WherePred)
    (hwf : wfKeys flds)
    (hbv : findVal model.hooks "beforeValidation" = none)
    (hav : findVal model.hooks "afterValidation" = none)
    (hbs : findVal model.hooks "beforeSave" = none)
    (hval : runValidations model flds = [])
    (hfree : model.freeValidate flds = [])
    (hch : hasChanges model ⟨flds, meta⟩ = true)
    (hid : (Obj.get flds "id").truthy = true)
    (hzero : ∀ tbl sv fs, (exec (.updateQ tbl sv fs)).rows = []) :
    (∃ sv, Event.queryEv (.updateQ model.tableName sv
        (whereClause model (setKey whereArg "id" (.scalar (Obj.get flds "id")))))
      ∈ (save model exec ⟨flds, meta⟩ whereArg).1) ∧
    (save model exec ⟨flds, meta⟩ whereArg).2 = .error conflictUpdateErr ∧
    conflictUpdateErr.code = 409 ∧ conflictUpdateErr.code ≠ 404 := by
  have hclone : cloneObject flds = flds := cloneObject_id flds hwf
  have h1 : runHook model flds "beforeValidation" = .ok flds := by
    unfold runHook; rw [hbv]
  have h2 : validate model flds = .ok () := by
    simp [validate, hval, hfree]
  have h3 : runHook model flds "afterValidation" = .ok flds := by
    unfold runHook; rw [hav]
  have h5 : runHook model flds "beforeSave" = .ok flds := by
    unfold runHook; rw [hbs]
  have hupd : saveUpdate model exec ⟨flds, meta⟩ whereArg =
      ([.queryEv (.updateQ model.tableName
          (saveUpdateSetValues model ⟨flds, meta⟩)
          (whereClause model
            (setKey whereArg "id" (.scalar (Obj.get flds "id")))))],
       .error conflictUpdateErr) := by
    simp only [saveUpdate]
    rw [hzero]
    simp
  have hcore : saveCore model exec ⟨flds, meta⟩ whereArg =
      ([.queryEv .beginTxn, .hookEv "beforeValidation",
        .hookEv "afterValidation", .hookEv "beforeSave",
        .queryEv (.updateQ model.tableName
          (saveUpdateSetValues model ⟨flds, meta⟩)
          (whereClause model
            (setKey whereArg "id" (.scalar (Obj.get flds "id")))))],
       .fail conflictUpdateErr ⟨flds, meta⟩) := by
    simp [saveCore, h1, h2, h3, h5, hch, hid, hupd]
  have hsave : save model exec ⟨flds, meta⟩ whereArg =
      ([.queryEv .beginTxn, .hookEv "beforeValidation",
        .hookEv "afterValidation", .hookEv "beforeSave",
        .queryEv (.updateQ model.tableName
          (saveUpdateSetValues model ⟨flds, meta⟩)
          (whereClause model
            (setKey whereArg "id" (.scalar (Obj.get flds "id"))))),
        .queryEv .rollbackTxn],
       .error conflictUpdateErr) := by
    simp only [save, hclone]
    rw [hcore]
    rfl
  refine ⟨⟨saveUpdateSetValues model ⟨flds, meta⟩, ?_⟩, by rw [hsave], rfl,
    by decide⟩
  rw [hsave]
  simp

theorem C3_witness :
    (∃ sv, Event.queryEv (.updateQ wModel.tableName sv
        (whereClause wModel (setKey [] "id"
          (.scalar (Obj.get [("id", Value.vnum 1), ("age", Value.vnum 30)] "id")))))
      ∈ (save wModel execEmpty
          ⟨[("id", Value.vnum 1), ("age", Value.vnum 30)], none⟩ []).1) ∧
    (save wModel execEmpty
        ⟨[("id", Value.vnum 1), ("age", Value.vnum 30)], none⟩ []).2 =
      .error conflictUpdateErr ∧
    conflictUpdateErr.code = 409 ∧ conflictUpdateErr.code ≠ 404 :=
  C3_guarded_update_conflict wModel execEmpty
    [("id", Value.vnum 1), ("age", Value.vnum 30)] none []
    (by decide) rfl rfl rfl (by decide) rfl (by decide) (by decide)
    (fun _ _ _ => rfl)

-- ---------------------------------------------------------------------------
-- C10: a record with no snapshot is fully re-sent (minus managed fields)
-- ---------------------------------------------------------------------------

theorem columnsToSource_fold_append (cs : List Column) (obj : Obj) (acc : Obj)
    (hnd : (cs.map Column.source).Nodup)
    (hdisj : ∀ c ∈ cs, c.source ∉ keysOf acc) :
    cs.foldl
      (fun a c => if Obj.hasKey obj c.name
        then setKey a c.source (Obj.get obj c.name) else a) acc =
      acc ++ (cs.filter (fun c => Obj.hasKey obj c.name)).map
        (fun c => (c.source, Obj.get obj c.name)) := by
  induction cs generalizing acc with
  | nil => simp
  | cons c rest ih =>
      have hnd' : c.source ∉ rest.map Column.source ∧
          (rest.map Column.source).Nodup := by
        rw [List.map_cons, List.nodup_cons] at hnd; exact hnd
      simp only [List.foldl_cons]
      by_cases hk : Obj.hasKey obj c.name = true
      · rw [if_pos hk,
          setKey_of_not_mem acc c.source _ (hdisj c (List.mem_cons_self _ _))]
        rw [ih (acc ++ [(c.source, Obj.get obj c.name)]) hnd'.2 ?_]
        · rw [List.filter_cons_of_pos (by exact hk), List.map_cons]
          simp
        · intro c' hc' hmem
          unfold keysOf at hmem
          rw [List.map_append] at hmem
          rcases List.mem_append.mp hmem with h | h
          · exact hdisj c' (List.mem_cons_of_mem _ hc') h
          · simp only [List.map_cons, List.map_nil,
              List.mem_singleton] at h
            exact hnd'.1 (h ▸ List.mem_map_of_mem Column.source hc')
      · rw [if_neg hk]
        rw [ih acc hnd'.2 (fun c' hc' => hdisj c' (List.mem_cons_of_mem _ hc'))]
        rw [List.filter_cons_of_neg (by simpa using hk)]

theorem columnsToSource_eq (model : Model) (obj : Obj)
    (hnd : (model.columns.map Column.source).Nodup) :
    columnsToSource model obj =
      (model.columns.filter (fun c => Obj.hasKey obj c.name)).map
        (fun c => (c.source, Obj.get obj c.name)) := by
  have h := columnsToSource_fold_append model.columns obj [] hnd
    (by intro c _; simp [keysOf])
  simpa [columnsToSource] using h

theorem findVal_colMap_none (cs : List Column) (obj : Obj) (src : String)
    (h : src ∉ cs.map Column.source) :
    findVal ((cs.filter (fun c => Obj.hasKey obj c.name)).map
      (fun c => (c.source, Obj.get obj c.name))) src = none := by
  apply findVal_eq_none_of_not_mem
  intro hmem
  apply h
  unfold keysOf at hmem
  rw [List.map_map] at hmem
  rcases List.mem_map.mp hmem with ⟨c, hc, hcs⟩
  exact hcs ▸ List.mem_map_of_mem Column.source (List.mem_of_mem_filter hc)

theorem findVal_colMap (cs : List Column) (obj : Obj) (src : String)
    (hnd : (cs.map Column.source).Nodup) :
    findVal ((cs.filter (fun c => Obj.hasKey obj c.name)).map
      (fun c => (c.source, Obj.get obj c.name))) src =
    match cs.find? (fun c => c.source == src) with
    | none => none
    | some c =>
        if Obj.hasKey obj c.name then some (Obj.get obj c.name) else none := by
  induction cs with
  | nil => rfl
  | cons c rest ih =>
      rw [List.map_cons, List.nodup_cons] at hnd
      by_cases hs : c.source = src
      · rw [List.find?_cons_of_pos _ (by simpa using hs)]
        by_cases hk : Obj.hasKey obj c.name = true
        · rw [List.filter_cons_of_pos (by exact hk), List.map_cons,
            findVal_cons]
          simp [hs, hk]
        · rw [List.filter_cons_of_neg (by simpa using hk)]
          have h0 := findVal_colMap_none rest obj src (hs ▸ hnd.1)
          simp [hk, h0]
      · rw [List.find?_cons_of_neg _ (by simpa using hs)]
        by_cases hk : Obj.hasKey obj c.name = true
        · rw [List.filter_cons_of_pos (by exact hk), List.map_cons,
            findVal_cons, if_neg hs]
          exact ih hnd.2
        · rw [List.filter_cons_of_neg (by simpa using hk)]
          exact ih hnd.2

theorem find?_source_of_mem (cs : List Column) (c : Column)
    (hnd : (cs.map Column.source).Nodup) (hc : c ∈ cs) :
    cs.find? (fun c2 => c2.source == c.source) = some c := by
  induction cs with
  | nil => cases hc
  | cons c0 rest ih =>
      rw [List.map_cons, List.nodup_cons] at hnd
      rcases List.mem_cons.mp hc with rfl | hmem
      · rw [List.find?_cons_of_pos _ (by simp)]
      · by_cases hs : c0.source = c.source
        · exact absurd (hs ▸ List.mem_map_of_mem Column.source hmem) hnd.1
        · rw [List.find?_cons_of_neg _ (by simpa using hs)]
          exact ih hnd.2 hmem

theorem hasKey_stripManaged (o : Obj) (k : String)
    (h1 : k ≠ "id") (h2 : k ≠ "createdAt") (h3 : k ≠ "updatedAt") :
    Obj.hasKey (stripManaged o) k = Obj.hasKey o k := by
  unfold Obj.hasKey stripManaged
  rw [findVal_delKey_ne _ _ _ h3, findVal_delKey_ne _ _ _ h2,
    findVal_delKey_ne _ _ _ h1]

theorem get_stripManaged (o : Obj) (k : String)
    (h1 : k ≠ "id") (h2 : k ≠ "createdAt") (h3 : k ≠ "updatedAt") :
    Obj.get (stripManaged o) k = Obj.get o k := by
  unfold Obj.get stripManaged
  rw [findVal_delKey_ne _ _ _ h3, findVal_delKey_ne _ _ _ h2,
    findVal_delKey_ne _ _ _ h1]

/-- C10 (amended): for a record with a truthy id but no `$meta` snapshot the
change check always reports changes — the empty-change-set short-circuit is
never taken — and the UPDATE's change-set is the entire record minus the
engine-managed `id`/`createdAt`/`updatedAt` fields, so every other
column-mapped field present on the record is re-sent (and the managed id is
not). -/
theorem C10_no_snapshot_resends_all (model : Model) (flds : Obj)
    (hnd : (model.columns.map Column.source).Nodup) :
    hasChanges model ⟨flds, none⟩ = true ∧
    updateChangeSet ⟨flds, none⟩ = stripManaged flds ∧
    (∀ c ∈ model.columns,
      c.name ≠ "id" → c.name ≠ "createdAt" → c.name ≠ "updatedAt" →
      Obj.hasKey flds c.name = true →
      findVal (saveUpdateSetValues model ⟨flds, none⟩) c.source =
        some (Obj.get flds c.name)) ∧
    ((⟨"id", "id"⟩ : Column) ∈ model.columns →
      findVal (saveUpdateSetValues model ⟨flds, none⟩) "id" = none) := by
  refine ⟨rfl, rfl, ?_, ?_⟩
  · intro c hc hn1 hn2 hn3 hkey
    have hkey' : Obj.hasKey (stripManaged flds) c.name = true := by
      rw [hasKey_stripManaged flds c.name hn1 hn2 hn3]; exact hkey
    have hget : Obj.get (stripManaged flds) c.name = Obj.get flds c.name :=
      get_stripManaged flds c.name hn1 hn2 hn3
    unfold saveUpdateSetValues
    rw [show updateChangeSet ⟨flds, none⟩ = stripManaged flds from rfl]
    rw [columnsToSource_eq model (stripManaged flds) hnd]
    rw [findVal_append_left]
    · rw [findVal_colMap model.columns (stripManaged flds) c.source hnd]
      rw [find?_source_of_mem model.columns c hnd hc]
      simp [hkey', hget]
    · rw [findVal_colMap model.columns (stripManaged flds) c.source hnd]
      rw [find?_source_of_mem model.columns c hnd hc]
      simp [hkey']
  · intro hidcol
    unfold saveUpdateSetValues
    rw [show updateChangeSet ⟨flds, none⟩ = stripManaged flds from rfl]
    rw [columnsToSource_eq model (stripManaged flds) hnd]
    rw [findVal_append_right]
    · rw [findVal_cons]
      rw [if_neg (by decide)]
      rfl
    · rw [findVal_colMap model.columns (stripManaged flds) "id" hnd]
      have hfind : model.columns.find? (fun c2 => c2.source == "id") =
          some ⟨"id", "id"⟩ :=
        find?_source_of_mem model.columns ⟨"id", "id"⟩ hnd hidcol
      rw [hfind]
      have hnk : Obj.hasKey (stripManaged flds) "id" = false := by
        unfold Obj.hasKey stripManaged
        rw [findVal_delKey_ne _ _ _ (by decide),
          findVal_delKey_ne _ _ _ (by decide), findVal_delKey_self]
        rfl
      simp [hnk]

/-- C10's claim as frozen is refuted here: the record's `id` field is present
on the record, the change check reports changes, yet the UPDATE's SET values
do not re-send `id` (it is deleted before the change-set is formed). -/
theorem C10_counterexample :
    hasChanges wModel ⟨[("id", Value.vnum 1), ("name", Value.vstr "x")],
      none⟩ = true ∧
    Obj.hasKey [("id", Value.vnum 1), ("name", Value.vstr "x")] "id" = true ∧
    findVal (saveUpdateSetValues wModel
      ⟨[("id", Value.vnum 1), ("name", Value.vstr "x")], none⟩) "id" =
      none := by
  decide

theorem C10_witness :
    hasChanges wModel ⟨[("id", Value.vnum 1), ("name", Value.vstr "x")],
      none⟩ = true ∧
    updateChangeSet ⟨[("id", Value.vnum 1), ("name", Value.vstr "x")], none⟩ =
      stripManaged [("id", Value.vnum 1), ("name", Value.vstr "x")] ∧
    findVal (saveUpdateSetValues wModel
      ⟨[("id", Value.vnum 1), ("name", Value.vstr "x")], none⟩) "name" =
      some (Obj.get [("id", Value.vnum 1), ("name", Value.vstr "x")] "name") ∧
    findVal (saveUpdateSetValues wModel
      ⟨[("id", Value.vnum 1), ("name", Value.vstr "x")], none⟩) "id" =
      none := by
  have h := C10_no_snapshot_resends_all wModel
    [("id", Value.vnum 1), ("name", Value.vstr "x")] (by decide)
  exact ⟨h.1, h.2.1,
    h.2.2.1 ⟨"name", "name"⟩ (by decide) (by decide) (by decide) (by decide)
      (by decide),
    h.2.2.2 (by decide)⟩

-- ---------------------------------------------------------------------------
-- C8: inclusion batching
-- ---------------------------------------------------------------------------

/-- C8: over a non-empty list of owning records, a `hasMany`/`hasOne`
inclusion consults the associated model's `all` exactly once — one secondary
query regardless of how many owning records there are — and attaches to each
owning record exactly the fetched rows whose foreign-key value equals that
record's id (`hasMany` attaches the list, so a record with no children gets
`[]`, never undefined; `hasOne` attaches the first match or undefined).  The
grouping hypothesis states that the JS string coercion used by `_.groupBy`
does not collide on the values at hand (always true for ids of one scalar
type). -/
theorem C8_include_batching (model : Model) (records : List Obj) (inc : String)
    (rel : Relation) (fk : String)
    (allFn : WherePred → Except BoxErr (List Obj)) (assocs : List Obj)
    (hne : records ≠ [])
    (hrel : relationByName model inc = some rel)
    (htype : rel.type = "hasMany" ∨ rel.type = "hasOne")
    (hfk : foreignKeyForRelation model inc = some fk)
    (hfetch : allFn [(fk, WhereVal.ops [("in",
      OpArg.arr (records.map (fun r => Obj.get r "id")))])] = .ok assocs)
    (hinj : ∀ a ∈ assocs, ∀ r ∈ records,
      (Obj.get a fk).jsString = (Obj.get r "id").jsString →
      Obj.get a fk = Obj.get r "id") :
    (includeStr model records inc allFn).1.length = 1 ∧
    (includeStr model records inc allFn).2 = .ok (records.map (fun r =>
      (r, if rel.type = "hasOne"
          then Attached.single (assocs.filter
            (fun a => Obj.get a fk == Obj.get r "id")).head?
          else Attached.many (assocs.filter
            (fun a => Obj.get a fk == Obj.get r "id"))))) ∧
    (∀ r ∈ records, rel.type = "hasMany" →
      (∀ a ∈ assocs, Obj.get a fk ≠ Obj.get r "id") →
      ∃ out, (includeStr model records inc allFn).2 = .ok out ∧
        (r, Attached.many []) ∈ out) := by
  have hbel : ¬(rel.type = "belongsTo") := by
    rcases htype with h | h <;> simp [h]
  have hie : records.isEmpty = false := by
    cases records with
    | nil => exact absurd rfl hne
    | cons a l => rfl
  have hfilter : ∀ r ∈ records,
      assocs.filter (fun a =>
        (Obj.get a fk).jsString == (Obj.get r "id").jsString) =
      assocs.filter (fun a => Obj.get a fk == Obj.get r "id") := by
    intro r hr
    apply List.filter_congr
    intro a ha
    by_cases he : Obj.get a fk = Obj.get r "id"
    · rw [beq_iff_eq.mpr he, beq_iff_eq.mpr (by rw [he])]
    · have hs : ¬((Obj.get a fk).jsString = (Obj.get r "id").jsString) :=
        fun hss => he (hinj a ha r hr hss)
      rw [beq_eq_false_iff_ne.mpr he, beq_eq_false_iff_ne.mpr hs]
  have hincl : includeStr model records inc allFn =
      ([[(fk, WhereVal.ops [("in",
          OpArg.arr (records.map (fun r => Obj.get r "id")))])]],
       .ok (records.map (fun r =>
         (r, if rel.type = "hasOne"
             then Attached.single (assocs.filter
               (fun a => Obj.get a fk == Obj.get r "id")).head?
             else Attached.many (assocs.filter
               (fun a => Obj.get a fk == Obj.get r "id")))))) := by
    simp only [includeStr, hie, Bool.false_eq_true, if_false, hrel, hfk,
      Option.getD_some]
    rw [if_neg hbel, if_pos htype]
    rw [hfetch]
    simp only [if_neg hbel, if_pos htype]
    have hmap : records.map (fun r =>
        (r, if rel.type = "hasOne"
            then Attached.single ((assocs.filter (fun a =>
              (Obj.get a fk).jsString == (Obj.get r "id").jsString)).head?)
            else Attached.many (assocs.filter (fun a =>
              (Obj.get a fk).jsString == (Obj.get r "id").jsString)))) =
      records.map (fun r =>
        (r, if rel.type = "hasOne"
            then Attached.single ((assocs.filter (fun a =>
              Obj.get a fk == Obj.get r "id")).head?)
            else Attached.many (assocs.filter (fun a =>
              Obj.get a fk == Obj.get r "id")))) := by
      apply List.map_congr_left
      intro r hr
      rw [hfilter r hr]
    congr 1
    exact congrArg Except.ok hmap
  refine ⟨by rw [hincl]; rfl, by rw [hincl], ?_⟩
  intro r hr hmany hnomatch
  refine ⟨_, by rw [hincl], ?_⟩
  have hfe : assocs.filter (fun a => Obj.get a fk == Obj.get r "id") = [] := by
    rw [List.filter_eq_nil_iff]
    intro a ha
    exact fun hh => hnomatch a ha (beq_iff_eq.mp hh)
  have hval : ((r, if rel.type = "hasOne"
      then Attached.single ((assocs.filter (fun a =>
        Obj.get a fk == Obj.get r "id")).head?)
      else Attached.many (assocs.filter (fun a =>
        Obj.get a fk == Obj.get r "id"))) : Obj × Attached) =
      (r, Attached.many []) := by
    rw [hfe, if_neg (by rw [hmany]; decide)]
  have hmem := List.mem_map_of_mem (fun r => (r,
    if rel.type = "hasOne"
    then Attached.single ((assocs.filter (fun a =>
      Obj.get a fk == Obj.get r "id")).head?)
    else Attached.many (assocs.filter (fun a =>
      Obj.get a fk == Obj.get r "id")))) hr
  rw [← hval]
  exact hmem

theorem C8_witness :
    (includeStr wModel [[("id", Value.vnum 1)], [("id", Value.vnum 2)]]
      "posts" postsAllFn).1.length = 1 ∧
    (includeStr wModel [[("id", Value.vnum 1)], [("id", Value.vnum 2)]]
      "posts" postsAllFn).2 =
      .ok ([[("id", Value.vnum 1)], [("id", Value.vnum 2)]].map (fun r =>
        (r, if ("hasMany" : String) = "hasOne"
            then Attached.single ((postsRows.filter
              (fun a => Obj.get a "personId" == Obj.get r "id")).head?)
            else Attached.many (postsRows.filter
              (fun a => Obj.get a "personId" == Obj.get r "id"))))) ∧
    (∀ r ∈ [[("id", Value.vnum 1)], [("id", Value.vnum 2)]],
      ("hasMany" : String) = "hasMany" →
      (∀ a ∈ postsRows, Obj.get a "personId" ≠ Obj.get r "id") →
      ∃ out, (includeStr wModel [[("id", Value.vnum 1)], [("id", Value.vnum 2)]]
        "posts" postsAllFn).2 = .ok out ∧ (r, Attached.many []) ∈ out) :=
  C8_include_batching wModel [[("id", Value.vnum 1)], [("id", Value.vnum 2)]]
    "posts" ⟨"hasMany", "posts", "post", some "personId"⟩ "personId"
    postsAllFn postsRows (by decide) (by decide) (Or.inl rfl) (by decide)
    rfl (by decide)

-- ---------------------------------------------------------------------------
-- C9: save mutates only the defensive clone
-- ---------------------------------------------------------------------------

theorem findRef_cons (p : Nat × Obj) (ps : List (Nat × Obj)) (r : Nat) :
    findRef (p :: ps) r = if p.1 = r then some p.2 else findRef ps r := rfl

theorem findRef_append_single_ne (l : List (Nat × Obj)) (n : Nat) (o : Obj)
    (r : Nat) (h : r ≠ n) : findRef (l ++ [(n, o)]) r = findRef l r := by
  induction l with
  | nil =>
      show (if n = r then some o else findRef [] r) = none
      rw [if_neg (fun hh => h hh.symm)]
      rfl
  | cons p ps ih =>
      rw [List.cons_append, findRef_cons, findRef_cons]
      by_cases hp : p.1 = r
      · rw [if_pos hp, if_pos hp]
      · rw [if_neg hp, if_neg hp]
        exact ih

theorem findRef_write_ne (l : List (Nat × Obj)) (n : Nat) (o : Obj) (r : Nat)
    (h : r ≠ n) :
    findRef (l.map (fun p => if p.1 = n then (n, o) else p)) r =
      findRef l r := by
  induction l with
  | nil => rfl
  | cons p ps ih =>
      rw [List.map_cons, findRef_cons, findRef_cons]
      by_cases hp : p.1 = n
      · rw [if_pos hp]
        rw [if_neg (show ¬((n, o).1 = r) from fun hh => h hh.symm)]
        rw [if_neg (fun hh => h (hh.symm.trans hp))]
        exact ih
      · rw [if_neg hp]
        by_cases hr : p.1 = r
        · rw [if_pos hr, if_pos hr]
        · rw [if_neg hr, if_neg hr]
          exact ih

theorem Heap.read_write_ne (h : Heap) (n : Nat) (o : Obj) (r : Nat)
    (hne : r ≠ n) : (h.write n o).read r = h.read r := by
  unfold Heap.read Heap.write
  rw [findRef_write_ne _ _ _ _ hne]

theorem Heap.read_alloc_ne (h : Heap) (o : Obj) (r : Nat)
    (hne : r ≠ h.nextRef) : (h.alloc o).1.read r = h.read r := by
  unfold Heap.read Heap.alloc
  rw [findRef_append_single_ne _ _ _ _ hne]

theorem read_hookStepH (model : Model) (h : Heap) (ref : Nat) (name : String)
    (r : Nat) (hne : r ≠ ref) :
    (hookStepH model h ref name).1.read r = h.read r := by
  unfold hookStepH
  cases hc : runHook model (h.read ref) name with
  | error e => rfl
  | ok o => exact Heap.read_write_ne h ref o r hne

/-- C9: whether the save succeeds or fails, the caller's record object is
left unmutated — its enumerable fields read back unchanged — because save
clones the input into a fresh object and every hook, validation and
engine-managed deletion is applied to that clone only. -/
theorem C9_save_mutates_only_clone (model : Model) (exec : Query → QueryResult)
    (h0 : Heap) (objRef : Nat) (meta : Option Obj) (whereArg : WherePred)
    (hdom : objRef ≠ h0.nextRef) :
    (saveHeap model exec h0 objRef meta whereArg).1.read objRef =
      h0.read objRef := by
  simp only [saveHeap]
  rcases hAl : h0.alloc (cloneObject (h0.read objRef)) with ⟨h1, cloneRef⟩
  dsimp only
  have hcr : cloneRef = h0.nextRef := by
    have hh : (h0.alloc (cloneObject (h0.read objRef))).2 = h0.nextRef := rfl
    rw [hAl] at hh
    exact hh
  have hne : objRef ≠ cloneRef := by rw [hcr]; exact hdom
  have hr1 : h1.read objRef = h0.read objRef := by
    have hh := Heap.read_alloc_ne h0 (cloneObject (h0.read objRef)) objRef hdom
    rw [hAl] at hh
    exact hh
  rcases hs1 : hookStepH model h1 cloneRef "beforeValidation" with ⟨h2, r2⟩
  have hr2 : h2.read objRef = h1.read objRef := by
    have hh := read_hookStepH model h1 cloneRef "beforeValidation" objRef hne
    rw [hs1] at hh
    exact hh
  cases r2 with
  | error e => dsimp only; rw [hr2, hr1]
  | ok u =>
      dsimp only
      cases hv : validate model (h2.read cloneRef) with
      | error e => dsimp only; rw [hr2, hr1]
      | ok u2 =>
          dsimp only
          rcases hs2 : hookStepH model h2 cloneRef "afterValidation"
            with ⟨h3, r3⟩
          have hr3 : h3.read objRef = h2.read objRef := by
            have hh := read_hookStepH model h2 cloneRef "afterValidation"
              objRef hne
            rw [hs2] at hh
            exact hh
          cases r3 with
          | error e => dsimp only; rw [hr3, hr2, hr1]
          | ok u3 =>
              dsimp only
              by_cases hch :
                  hasChanges model ⟨h3.read cloneRef, meta⟩ = true
              · rw [if_pos hch]
                rcases hs3 : hookStepH model h3 cloneRef "beforeSave"
                  with ⟨h4, r4⟩
                have hr4 : h4.read objRef = h3.read objRef := by
                  have hh := read_hookStepH model h3 cloneRef "beforeSave"
                    objRef hne
                  rw [hs3] at hh
                  exact hh
                cases r4 with
                | error e => dsimp only; rw [hr4, hr3, hr2, hr1]
                | ok u4 =>
                    dsimp only
                    by_cases hid :
                        (Obj.get (h4.read cloneRef) "id").truthy = true
                    · rw [if_pos hid]
                      have hw := Heap.read_write_ne h4 cloneRef
                        (stripManaged (h4.read cloneRef)) objRef hne
                      dsimp only
                      rw [hw, hr4, hr3, hr2, hr1]
                    · rw [if_neg hid]
                      dsimp only
                      rw [hr4, hr3, hr2, hr1]
              · rw [if_neg hch]
                dsimp only
                rw [hr3, hr2, hr1]

theorem C9_witness :
    (saveHeap wModel execEmpty
        ⟨[(0, [("id", Value.vnum 1), ("name", Value.vstr "x")])], 1⟩
        0 none []).1.read 0 =
      Heap.read ⟨[(0, [("id", Value.vnum 1), ("name", Value.vstr "x")])], 1⟩
        0 :=
  C9_save_mutates_only_clone wModel execEmpty
    ⟨[(0, [("id", Value.vnum 1), ("name", Value.vstr "x")])], 1⟩
    0 none [] (by decide)

-- ---------------------------------------------------------------------------
-- C4: the revision guard
-- ---------------------------------------------------------------------------

theorem applySet_findVal_of_not_mem (row sv : Obj) (k : String)
    (h : k ∉ keysOf sv) : findVal (applySet row sv) k = findVal row k := by
  induction sv generalizing row with
  | nil => rfl
  | cons p ps ih =>
      show findVal (applySet (setKey row p.1 p.2) ps) k = findVal row k
      unfold keysOf at h
      rw [List.map_cons] at h
      have h1 : k ≠ p.1 := fun hh => h (hh ▸ List.mem_cons_self _ _)
      have h2 : k ∉ keysOf ps := fun hh => h (List.mem_cons_of_mem _ hh)
      rw [ih (setKey row p.1 p.2) h2]
      exact findVal_setKey_ne row p.1 k p.2 h1

theorem applySet_findVal_of_mem (row sv : Obj) (k : String)
    (hwfsv : wfKeys sv) (h : (findVal sv k).isSome) :
    findVal (applySet row sv) k = findVal sv k := by
  induction sv generalizing row with
  | nil => simp [findVal] at h
  | cons p ps ih =>
      show findVal (applySet (setKey row p.1 p.2) ps) k = _
      have hwf' : p.1 ∉ keysOf ps ∧ wfKeys ps := by
        unfold wfKeys keysOf at hwfsv ⊢
        rw [List.map_cons, List.nodup_cons] at hwfsv
        exact hwfsv
      rw [findVal_cons]
      by_cases hk : p.1 = k
      · rw [if_pos hk]
        rw [applySet_findVal_of_not_mem _ _ _ (hk ▸ hwf'.1)]
        rw [← hk]
        exact findVal_setKey_self row p.1 p.2
      · rw [if_neg hk]
        rw [findVal_cons, if_neg hk] at h
        exact ih (setKey row p.1 p.2) hwf'.2 h

theorem source_inj (cs : List Column) (hnd : (cs.map Column.source).Nodup)
    (c c' : Column) (hc : c ∈ cs) (hc' : c' ∈ cs)
    (h : c.source = c'.source) : c = c' := by
  have h1 := find?_source_of_mem cs c hnd hc
  have h2 := find?_source_of_mem cs c' hnd hc'
  rw [h] at h1
  exact Option.some.inj (h1.symm.trans h2)

/-- The mutated record the revision-variant `saveUpdate` maps to source keys:
managed fields stripped and the revision incremented in place. -/
def revObj3 (box : Model) (obj : Obj) : Obj :=
  setKey (delKey (delKey (delKey obj "id") "createdAt") "updatedAt")
    box.revisionColumnName (Value.incr (Obj.get obj box.revisionColumnName))

theorem saveUpdateRevSpec_eq (box : Model) (obj : Obj) :
    saveUpdateRevSpec box obj =
      { setValues := columnsToSource box (revObj3 box obj) ++
          [("updated_at", Value.vstr "current_timestamp")],
        idArg := Obj.get obj "id",
        revArg := Obj.get obj box.revisionColumnName } := rfl

/-- C4: in the revision-based variant, an update of an existing record
succeeds exactly when the submitted revision equals the currently persisted
one (a mismatch yields a 409 conflict), and a successful update leaves the
row's persisted revision incremented by exactly one.  The hypotheses say the
table has exactly one row with the record's id, the revision values are
numeric, and the model's columns are sanely configured (distinct sources,
the implicit id and revision columns present, only the `updatedAt` column
mapping to the `updated_at` source). -/
theorem C4_revision_guard (box : Model) (table : List Obj) (obj row0 : Obj)
    (idv : Value) (subm dbrev : Int)
    (hid : Obj.get obj "id" = idv)
    (hsubm : Obj.get obj box.revisionColumnName = .vnum subm)
    (hdbrev : Obj.get row0 box.revisionColumnName = .vnum dbrev)
    (hrow : table.filter (fun row => Obj.get row "id" == idv) = [row0])
    (hsrc : (box.columns.map Column.source).Nodup)
    (hrccol : (⟨box.revisionColumnName, box.revisionColumnName⟩ : Column)
      ∈ box.columns)
    (hrc1 : box.revisionColumnName ≠ "id")
    (hrc3 : box.revisionColumnName ≠ "updatedAt")
    (hidcol : (⟨"id", "id"⟩ : Column) ∈ box.columns)
    (hupdcol : ∀ c ∈ box.columns, c.source = "updated_at" →
      c.name = "updatedAt") :
    ((∃ o, (saveUpdateRevOp box table obj).2 = .ok o) ↔ subm = dbrev) ∧
    (subm = dbrev →
      (saveUpdateRevOp box table obj).1.filter
          (fun row => Obj.get row "id" == idv) =
        [applySet row0 (saveUpdateRevSpec box obj).setValues] ∧
      Obj.get (applySet row0 (saveUpdateRevSpec box obj).setValues)
          box.revisionColumnName = .vnum (dbrev + 1)) := by
  have hidArg : (saveUpdateRevSpec box obj).idArg = idv := hid
  have hrevArg : (saveUpdateRevSpec box obj).revArg = Value.vnum subm := hsubm
  have hrcval : findVal (revObj3 box obj) box.revisionColumnName =
      some (Value.vnum (subm + 1)) := by
    unfold revObj3
    rw [findVal_setKey_self, hsubm]
    rfl
  have hrchas : Obj.hasKey (revObj3 box obj) box.revisionColumnName = true := by
    unfold Obj.hasKey
    rw [hrcval]
    rfl
  have hid3 : findVal (revObj3 box obj) "id" = none := by
    unfold revObj3
    rw [findVal_setKey_ne _ _ _ _ (Ne.symm hrc1)]
    rw [findVal_delKey_ne _ _ _ (by decide), findVal_delKey_ne _ _ _ (by decide),
      findVal_delKey_self]
  have hupd3 : findVal (revObj3 box obj) "updatedAt" = none := by
    unfold revObj3
    rw [findVal_setKey_ne _ _ _ _ (Ne.symm hrc3)]
    rw [findVal_delKey_self]
  have hsv : (saveUpdateRevSpec box obj).setValues =
      (box.columns.filter (fun c => Obj.hasKey (revObj3 box obj) c.name)).map
        (fun c => (c.source, Obj.get (revObj3 box obj) c.name)) ++
      [("updated_at", Value.vstr "current_timestamp")] := by
    show columnsToSource box (revObj3 box obj) ++
      [("updated_at", Value.vstr "current_timestamp")] = _
    rw [columnsToSource_eq box (revObj3 box obj) hsrc]
  have hkeys : keysOf (saveUpdateRevSpec box obj).setValues =
      (box.columns.filter (fun c => Obj.hasKey (revObj3 box obj) c.name)).map
        Column.source ++ ["updated_at"] := by
    rw [hsv]
    unfold keysOf
    rw [List.map_append, List.map_map]
    rfl
  have hnotupd : ∀ c ∈ box.columns.filter
      (fun c => Obj.hasKey (revObj3 box obj) c.name),
      c.source ≠ "updated_at" := by
    intro c hc hcsrc
    have hcmem := List.mem_of_mem_filter hc
    have hcname := hupdcol c hcmem hcsrc
    have hck : Obj.hasKey (revObj3 box obj) c.name = true :=
      (List.mem_filter.mp hc).2
    rw [hcname] at hck
    unfold Obj.hasKey at hck
    rw [hupd3] at hck
    exact absurd hck (by decide)
  have hwfsv : wfKeys (saveUpdateRevSpec box obj).setValues := by
    unfold wfKeys
    rw [hkeys, List.nodup_append]
    refine ⟨List.Nodup.sublist
      (List.Sublist.map Column.source (List.filter_sublist _)) hsrc,
      List.nodup_singleton _, ?_⟩
    intro x hx hx2
    rcases List.mem_map.mp hx with ⟨c, hc, rfl⟩
    rw [List.mem_singleton] at hx2
    exact hnotupd c hc hx2
  have hidnot : "id" ∉ keysOf (saveUpdateRevSpec box obj).setValues := by
    rw [hkeys]
    intro hmem
    rcases List.mem_append.mp hmem with h | h
    · rcases List.mem_map.mp h with ⟨c, hc, hcs⟩
      have hcmem := List.mem_of_mem_filter hc
      have hceq : c = ⟨"id", "id"⟩ :=
        source_inj box.columns hsrc c ⟨"id", "id"⟩ hcmem hidcol hcs
      have hck := (List.mem_filter.mp hc).2
      rw [hceq] at hck
      unfold Obj.hasKey at hck
      rw [hid3] at hck
      exact absurd hck (by decide)
    · rw [List.mem_singleton] at h
      exact absurd h (by decide)
  have hsv_rc : findVal (saveUpdateRevSpec box obj).setValues
      box.revisionColumnName = some (Value.vnum (subm + 1)) := by
    rw [hsv]
    rw [findVal_append_left]
    · rw [findVal_colMap box.columns (revObj3 box obj)
        box.revisionColumnName hsrc]
      rw [find?_source_of_mem box.columns
        ⟨box.revisionColumnName, box.revisionColumnName⟩ hsrc hrccol]
      dsimp only
      rw [if_pos hrchas]
      unfold Obj.get
      rw [hrcval]
      rfl
    · rw [findVal_colMap box.columns (revObj3 box obj)
        box.revisionColumnName hsrc]
      rw [find?_source_of_mem box.columns
        ⟨box.revisionColumnName, box.revisionColumnName⟩ hsrc hrccol]
      dsimp only
      rw [if_pos hrchas]
      rfl
  have hrow0id : (Obj.get row0 "id" == idv) = true := by
    have hmem : row0 ∈ table.filter (fun row => Obj.get row "id" == idv) := by
      rw [hrow]
      exact List.mem_singleton_self _
    exact (List.mem_filter.mp hmem).2
  have hff : table.filter (rowMatchesGuard box.revisionColumnName idv
      (Value.vnum subm)) =
      (table.filter (fun row => Obj.get row "id" == idv)).filter
        (fun row => Obj.get row box.revisionColumnName == Value.vnum subm) := by
    rw [List.filter_filter]
    apply List.filter_congr
    intro a _
    exact Bool.and_comm _ _
  have hidpres : ∀ row, Obj.get
      (if rowMatchesGuard box.revisionColumnName
        (saveUpdateRevSpec box obj).idArg (saveUpdateRevSpec box obj).revArg
        row = true
       then applySet row (saveUpdateRevSpec box obj).setValues else row)
      "id" = Obj.get row "id" := by
    intro row
    by_cases hg : rowMatchesGuard box.revisionColumnName
        (saveUpdateRevSpec box obj).idArg (saveUpdateRevSpec box obj).revArg
        row = true
    · rw [if_pos hg]
      unfold Obj.get
      rw [applySet_findVal_of_not_mem row _ "id" hidnot]
    · rw [if_neg hg]
  by_cases hsd : subm = dbrev
  · have hbe : (Obj.get row0 box.revisionColumnName == Value.vnum subm)
        = true := by
      rw [hdbrev, hsd]
      simp
    have hg0 : rowMatchesGuard box.revisionColumnName
        (saveUpdateRevSpec box obj).idArg (saveUpdateRevSpec box obj).revArg
        row0 = true := by
      unfold rowMatchesGuard
      rw [hidArg, hrevArg, Bool.and_eq_true]
      exact ⟨hrow0id, hbe⟩
    have hfg : table.filter (rowMatchesGuard box.revisionColumnName
        (saveUpdateRevSpec box obj).idArg (saveUpdateRevSpec box obj).revArg) =
        [row0] := by
      rw [hidArg, hrevArg, hff, hrow, List.filter_cons_of_pos (by exact hbe)]
      rfl
    have hret2 : (execRevUpdate box table (saveUpdateRevSpec box obj)).2 =
        [applySet row0 (saveUpdateRevSpec box obj).setValues] := by
      show (table.filter (rowMatchesGuard box.revisionColumnName
        (saveUpdateRevSpec box obj).idArg
        (saveUpdateRevSpec box obj).revArg)).map
          (fun row => applySet row (saveUpdateRevSpec box obj).setValues) = _
      rw [hfg]
      rfl
    have hok : (saveUpdateRevOp box table obj).2 =
        .ok (buildSimple box
          (applySet row0 (saveUpdateRevSpec box obj).setValues)) := by
      simp only [saveUpdateRevOp]
      rw [hret2]
      simp
    have htbl : (saveUpdateRevOp box table obj).1 =
        (execRevUpdate box table (saveUpdateRevSpec box obj)).1 := by
      simp only [saveUpdateRevOp]
      split <;> rfl
    refine ⟨⟨fun _ => hsd, fun _ => ⟨_, hok⟩⟩, fun _ => ⟨?_, ?_⟩⟩
    · rw [htbl]
      show (table.map (fun row =>
        if rowMatchesGuard box.revisionColumnName
          (saveUpdateRevSpec box obj).idArg
          (saveUpdateRevSpec box obj).revArg row = true
        then applySet row (saveUpdateRevSpec box obj).setValues
        else row)).filter (fun row => Obj.get row "id" == idv) = _
      rw [List.filter_map]
      rw [show ((fun row => Obj.get row "id" == idv) ∘ (fun row =>
          if rowMatchesGuard box.revisionColumnName
            (saveUpdateRevSpec box obj).idArg
            (saveUpdateRevSpec box obj).revArg row = true
          then applySet row (saveUpdateRevSpec box obj).setValues
          else row)) = (fun row => Obj.get row "id" == idv) from
        funext (fun row => by
          show (Obj.get (if rowMatchesGuard box.revisionColumnName
              (saveUpdateRevSpec box obj).idArg
              (saveUpdateRevSpec box obj).revArg row = true
            then applySet row (saveUpdateRevSpec box obj).setValues
            else row) "id" == idv) = _
          rw [hidpres row])]
      rw [hrow, List.map_cons, List.map_nil, if_pos hg0]
    · unfold Obj.get
      rw [applySet_findVal_of_mem row0 _ _ hwfsv (by rw [hsv_rc]; rfl)]
      rw [hsv_rc, hsd]
      rfl
  · have hbne : (Obj.get row0 box.revisionColumnName == Value.vnum subm)
        = false := by
      rw [hdbrev]
      simp only [beq_eq_false_iff_ne, ne_eq, Value.vnum.injEq]
      exact fun h => hsd h.symm
    have hfg : table.filter (rowMatchesGuard box.revisionColumnName
        (saveUpdateRevSpec box obj).idArg (saveUpdateRevSpec box obj).revArg) =
        [] := by
      rw [hidArg, hrevArg, hff, hrow,
        List.filter_cons_of_neg (by rw [hbne]; exact Bool.false_ne_true)]
      rfl
    have hret2 : (execRevUpdate box table (saveUpdateRevSpec box obj)).2 =
        [] := by
      show (table.filter (rowMatchesGuard box.revisionColumnName
        (saveUpdateRevSpec box obj).idArg
        (saveUpdateRevSpec box obj).revArg)).map
          (fun row => applySet row (saveUpdateRevSpec box obj).setValues) = _
      rw [hfg]
      rfl
    have herr : (saveUpdateRevOp box table obj).2 =
        .error { code := 409,
                 msg := "Row was not found, or revision did not match." } := by
      simp only [saveUpdateRevOp]
      rw [hret2]
      simp
    refine ⟨⟨?_, fun h => absurd h hsd⟩, fun h => absurd h hsd⟩
    rintro ⟨o, hok⟩
    rw [herr] at hok
    exact Except.noConfusion hok

/-- A submitted record for the revision-guard witness. -/
def c4obj : Obj :=
  [("id", Value.vnum 1), ("age", Value.vnum 30), ("revision", Value.vnum 3)]

/-- The persisted row the witness updates. -/
def c4row : Obj :=
  [("id", Value.vnum 1), ("age", Value.vnum 25), ("revision", Value.vnum 3)]

theorem C4_witness :
    ((∃ o, (saveUpdateRevOp wModel [c4row] c4obj).2 = .ok o) ↔
      (3 : Int) = 3) ∧
    ((3 : Int) = 3 →
      (saveUpdateRevOp wModel [c4row] c4obj).1.filter
          (fun row => Obj.get row "id" == Value.vnum 1) =
        [applySet c4row (saveUpdateRevSpec wModel c4obj).setValues] ∧
      Obj.get (applySet c4row (saveUpdateRevSpec wModel c4obj).setValues)
          wModel.revisionColumnName = .vnum (3 + 1)) :=
  C4_revision_guard wModel [c4row] c4obj c4row (Value.vnum 1) 3 3
    rfl rfl rfl (by decide) (by decide) (by decide) (by decide) (by decide)
    (by decide) (by decide)

-- ---------------------------------------------------------------------------
-- C2: validation failure blocks the pipeline
-- ---------------------------------------------------------------------------

theorem fieldKeysOf_cons_field (k : String) (v : Value) (exp fs : List String)
    (es : List VEntry) :
    fieldKeysOf (.fieldErr k v exp fs :: es) = k :: fieldKeysOf es := rfl

theorem fieldKeysOf_cons_message (m : String) (es : List VEntry) :
    fieldKeysOf (.messageErr m :: es) = fieldKeysOf es := rfl

/-- Pushing one field failure adds the key to the entry keys only when it is
new; an existing entry absorbs the failure. -/
theorem fieldKeysOf_push (es : List VEntry) (k : String) (v : Value)
    (exp : List String) (f : String) :
    fieldKeysOf (pushFieldError es k v exp f) =
      if k ∈ fieldKeysOf es then fieldKeysOf es else fieldKeysOf es ++ [k] := by
  induction es with
  | nil => simp [pushFieldError, fieldKeysOf, entryKey, List.filterMap]
  | cons e rest ih =>
      cases e with
      | fieldErr k' v' exp' fs =>
          by_cases hk : k' = k
          · unfold pushFieldError
            rw [if_pos hk, fieldKeysOf_cons_field, fieldKeysOf_cons_field]
            rw [if_pos (by rw [hk]; exact List.mem_cons_self _ _)]
          · unfold pushFieldError
            rw [if_neg hk, fieldKeysOf_cons_field, fieldKeysOf_cons_field, ih]
            by_cases hin : k ∈ fieldKeysOf rest
            · rw [if_pos hin, if_pos (List.mem_cons_of_mem _ hin)]
            · rw [if_neg hin, if_neg (by
                intro hmem
                rcases List.mem_cons.mp hmem with h | h
                · exact hk h.symm
                · exact hin h)]
              simp
      | messageErr m =>
          unfold pushFieldError
          rw [fieldKeysOf_cons_message, fieldKeysOf_cons_message, ih]

/-- The inner per-field rule loop with the `expected` list generalized (the
source closes over the full rule list while folding). -/
def runRulesAux (obj : Obj) (k : String) (exp : List String)
    (rules : List Rule) (es : List VEntry) : List VEntry :=
  rules.foldl
    (fun es rule =>
      if rule.passes obj k then es
      else pushFieldError es k (Obj.get obj k) exp rule.name)
    es

theorem runRulesForKey_eq_aux (obj : Obj) (k : String) (rules : List Rule)
    (es : List VEntry) :
    runRulesForKey obj k rules es =
      runRulesAux obj k (rules.map Rule.name) rules es := rfl

theorem fieldKeysOf_runRulesAux (obj : Obj) (k : String) (exp : List String)
    (rules : List Rule) (es : List VEntry) :
    fieldKeysOf (runRulesAux obj k exp rules es) =
      if rulesFail obj k rules = true ∧ k ∉ fieldKeysOf es
      then fieldKeysOf es ++ [k] else fieldKeysOf es := by
  induction rules generalizing es with
  | nil => simp [runRulesAux, rulesFail]
  | cons rule rest ih =>
      show fieldKeysOf (runRulesAux obj k exp rest
        (if rule.passes obj k then es
         else pushFieldError es k (Obj.get obj k) exp rule.name)) = _
      by_cases hp : rule.passes obj k
      · rw [if_pos hp, ih es]
        have hfr : rulesFail obj k (rule :: rest) = rulesFail obj k rest := by
          simp [rulesFail, hp]
        rw [hfr]
      · rw [if_neg hp, ih _, fieldKeysOf_push]
        have hfail : rulesFail obj k (rule :: rest) = true := by
          simp [rulesFail, hp]
        have hkE : k ∈ (if k ∈ fieldKeysOf es then fieldKeysOf es
            else fieldKeysOf es ++ [k]) := by
          by_cases hin : k ∈ fieldKeysOf es
          · rw [if_pos hin]; exact hin
          · rw [if_neg hin]
            exact List.mem_append_right _ (by simp)
        rw [if_neg (fun hc => hc.2 hkE)]
        by_cases hin : k ∈ fieldKeysOf es
        · rw [if_pos hin, if_neg (fun hc => hc.2 hin)]
        · rw [if_neg hin, if_pos ⟨hfail, hin⟩]

/-- The outer per-field loop: starting from disjoint accumulated entries, the
entry keys grow by exactly the violated fields, in order. -/
theorem fieldKeysOf_validations_fold (vs : List (String × List Rule))
    (obj : Obj) (es : List VEntry)
    (hnd : (vs.map Prod.fst).Nodup)
    (hdisj : ∀ kv ∈ vs, kv.1 ∉ fieldKeysOf es) :
    fieldKeysOf (vs.foldl (fun es kv => runRulesForKey obj kv.1 kv.2 es) es) =
      fieldKeysOf es ++
        (vs.filter (fun kv => rulesFail obj kv.1 kv.2)).map Prod.fst := by
  induction vs generalizing es with
  | nil => simp
  | cons kv rest ih =>
      have hnd' : (rest.map Prod.fst).Nodup ∧ kv.1 ∉ rest.map Prod.fst := by
        rw [List.map_cons, List.nodup_cons] at hnd
        exact ⟨hnd.2, hnd.1⟩
      have hkeys : fieldKeysOf (runRulesForKey obj kv.1 kv.2 es) =
          if rulesFail obj kv.1 kv.2 = true ∧ kv.1 ∉ fieldKeysOf es
          then fieldKeysOf es ++ [kv.1] else fieldKeysOf es := by
        rw [runRulesForKey_eq_aux]
        exact fieldKeysOf_runRulesAux obj kv.1 (kv.2.map Rule.name) kv.2 es
      simp only [List.foldl_cons]
      by_cases hfail : rulesFail obj kv.1 kv.2 = true
      · have hkeys2 : fieldKeysOf (runRulesForKey obj kv.1 kv.2 es) =
            fieldKeysOf es ++ [kv.1] := by
          rw [hkeys, if_pos ⟨hfail, hdisj kv (List.mem_cons_self _ _)⟩]
        rw [ih (runRulesForKey obj kv.1 kv.2 es) hnd'.1 ?_]
        · rw [hkeys2, List.filter_cons_of_pos (by exact hfail)]
          simp
        · intro kv' hkv'
          rw [hkeys2]
          intro hmem
          rcases List.mem_append.mp hmem with h | h
          · exact hdisj kv' (List.mem_cons_of_mem _ hkv') h
          · have : kv'.1 = kv.1 := by simpa using h
            exact hnd'.2 (this ▸ List.mem_map_of_mem Prod.fst hkv')
      · have hkeys2 : fieldKeysOf (runRulesForKey obj kv.1 kv.2 es) =
            fieldKeysOf es := by
          rw [hkeys, if_neg (fun hc => hfail hc.1)]
        rw [ih (runRulesForKey obj kv.1 kv.2 es) hnd'.1 ?_]
        · rw [hkeys2, List.filter_cons_of_neg (by simpa using hfail)]
        · intro kv' hkv'
          rw [hkeys2]
          exact hdisj kv' (List.mem_cons_of_mem _ hkv')

/-- With unique declared fields (as JS object keys are), the error list holds
exactly one per-field entry per violated field. -/
theorem fieldKeysOf_runValidations (model : Model) (obj : Obj)
    (hnd : (model.validations.map Prod.fst).Nodup) :
    fieldKeysOf (runValidations model obj) =
      (model.validations.filter
        (fun kv => rulesFail obj kv.1 kv.2)).map Prod.fst := by
  have h := fieldKeysOf_validations_fold model.validations obj [] hnd
    (by intro kv _; simp [fieldKeysOf])
  simpa [runValidations] using h

/-- C2: when validation yields a non-empty error list, save fails with a 403
ValidationFailed error carrying that list, whose per-field entries are one
per violated field; `beforeSave` never runs and no INSERT or UPDATE is
issued. -/
theorem C2_validation_blocks_save (model : Model) (exec : Query → QueryResult)
    (flds : Obj) (meta : Option Obj) (whereArg : WherePred)
    (hwf : wfKeys flds)
    (hbv : findVal model.hooks "beforeValidation" = none)
    (hfree : model.freeValidate flds = [])
    (hnd : (model.validations.map Prod.fst).Nodup)
    (hviol : runValidations model flds ≠ []) :
    (save model exec ⟨flds, meta⟩ whereArg).2 =
      .error { code := 403, msg := "Validation did not pass.",
               validationErrors := runValidations model flds } ∧
    fieldKeysOf (runValidations model flds) =
      (model.validations.filter
        (fun kv => rulesFail flds kv.1 kv.2)).map Prod.fst ∧
    (fieldKeysOf (runValidations model flds)).Nodup ∧
    (∀ ev ∈ (save model exec ⟨flds, meta⟩ whereArg).1, ev.isWrite = false) ∧
    Event.hookEv "beforeSave" ∉ (save model exec ⟨flds, meta⟩ whereArg).1 := by
  have hclone : cloneObject flds = flds := cloneObject_id flds hwf
  have h1 : runHook model flds "beforeValidation" = .ok flds := by
    unfold runHook; rw [hbv]
  have h2 : validate model flds =
      .error { code := 403, msg := "Validation did not pass.",
               validationErrors := runValidations model flds } := by
    simp only [validate, hfree]
    cases hrun : runValidations model flds with
    | nil => exact absurd hrun hviol
    | cons e es => simp
  have hcore : saveCore model exec ⟨flds, meta⟩ whereArg =
      ([.queryEv .beginTxn, .hookEv "beforeValidation"],
       .fail { code := 403, msg := "Validation did not pass.",
               validationErrors := runValidations model flds } ⟨flds, meta⟩) := by
    simp [saveCore, h1, h2]
  have hsave : save model exec ⟨flds, meta⟩ whereArg =
      ([.queryEv .beginTxn, .hookEv "beforeValidation",
        .queryEv .rollbackTxn],
       .error { code := 403, msg := "Validation did not pass.",
                validationErrors := runValidations model flds }) := by
    simp only [save, hclone]
    rw [hcore]
    rfl
  have hkeys := fieldKeysOf_runValidations model flds hnd
  refine ⟨by rw [hsave], hkeys, ?_, ?_, ?_⟩
  · rw [hkeys]
    exact List.Nodup.sublist
      (List.Sublist.map Prod.fst (List.filter_sublist _)) hnd
  · rw [hsave]
    intro ev hev
    have hev2 : ev ∈ [Event.queryEv .beginTxn, Event.hookEv "beforeValidation",
        Event.queryEv .rollbackTxn] := hev
    fin_cases hev2 <;> rfl
  · rw [hsave]
    intro hmem
    have hmem2 : Event.hookEv "beforeSave" ∈ [Event.queryEv .beginTxn,
        Event.hookEv "beforeValidation", Event.queryEv .rollbackTxn] := hmem
    exact absurd hmem2 (by decide)

theorem C2_witness :
    (save wModel execEmpty ⟨[("name", Value.vstr "Jim")], none⟩ []).2 =
      .error { code := 403, msg := "Validation did not pass.",
               validationErrors :=
                 runValidations wModel [("name", Value.vstr "Jim")] } ∧
    fieldKeysOf (runValidations wModel [("name", Value.vstr "Jim")]) =
      (wModel.validations.filter
        (fun kv => rulesFail [("name", Value.vstr "Jim")] kv.1 kv.2)).map
          Prod.fst ∧
    (fieldKeysOf (runValidations wModel [("name", Value.vstr "Jim")])).Nodup ∧
    (∀ ev ∈ (save wModel execEmpty ⟨[("name", Value.vstr "Jim")], none⟩ []).1,
      ev.isWrite = false) ∧
    Event.hookEv "beforeSave" ∉
      (save wModel execEmpty ⟨[("name", Value.vstr "Jim")], none⟩ []).1 :=
  C2_validation_blocks_save wModel execEmpty [("name", Value.vstr "Jim")]
    none [] (by decide) rfl rfl (by decide) (by decide)

theorem C1_witness :
    (save wModel execEmpty
        ⟨[("name", Value.vstr "Jim"), ("age", Value.vnum 25),
          ("id", Value.vnum 1)],
         some [("name", Value.vstr "Jim"), ("age", Value.vnum 25),
               ("id", Value.vnum 1)]⟩ []).2 =
      .ok ⟨[("name", Value.vstr "Jim"), ("age", Value.vnum 25),
            ("id", Value.vnum 1)],
           some [("name", Value.vstr "Jim"), ("age", Value.vnum 25),
                 ("id", Value.vnum 1)]⟩ ∧
    ∀ ev ∈ (save wModel execEmpty
        ⟨[("name", Value.vstr "Jim"), ("age", Value.vnum 25),
          ("id", Value.vnum 1)],
         some [("name", Value.vstr "Jim"), ("age", Value.vnum 25),
               ("id", Value.vnum 1)]⟩ []).1, ev.isWrite = false :=
  C1_noop_save wModel execEmpty
    [("name", Value.vstr "Jim"), ("age", Value.vnum 25), ("id", Value.vnum 1)]
    [("name", Value.vstr "Jim"), ("age", Value.vnum 25), ("id", Value.vnum 1)]
    [] (by decide) rfl rfl (by decide) rfl (by decide)

end Sqlbox
